import Mathlib

/-!
Verification of the sparkify core pipeline (packages/core/src): a shallow
embedding of the configuration resolver (`config.ts`), the docs-config
loader and navigation synthesis (`docs-json.ts`), the OpenAPI resolver
(`openapi.ts`) and the workspace builder (`workspace.ts`), together with
theorems settling the specified properties.

Modelling conventions, used throughout:
* JavaScript strings are Lean `String`s (lists of characters); `slice`,
  `trim`, `startsWith`, `endsWith`, `split` are embedded as structural
  functions on `String.data`.  JS `String.prototype.toLowerCase` /
  `toUpperCase` are embedded as ASCII case mapping (`Char.toLower` /
  `Char.toUpper`); the non-ASCII cases do not affect any property proved
  here because every non-alphanumeric character is replaced or compared
  verbatim.
* `localeCompare` and JS string `<` are embedded as code-point
  lexicographic comparison (`locCompare`).
* `Array.prototype.sort` (a stable comparison sort) is embedded as
  `List.insertionSort` over the relation "comparator ≤ 0"; the theorems
  only use sortedness and permutation, which hold for any JS sort.
* JS `Set` / `Map` objects are embedded as lists / association lists that
  preserve insertion order, matching JS iteration order.
* `undefined`-able values are `Option`s; JS `x ?? y` is `Option.getD` /
  `Option.orElse`, and JS `x || y` on strings treats `""` as falsy.
* Fallible code returns `Except SparkifyError`; filesystem and network
  effects are parameters (oracles) of the embedded functions.
-/

namespace Sparkify

/-! ### Exit codes and errors (`errors.ts`) -/

/-- Embeds `enum ExitCode` from `errors.ts`. -/
inductive ExitCode where
  | success
  | generalFailure
  | invalidConfig
  | invalidDocsJson
  | invalidOpenApi
  | buildFailure
deriving DecidableEq, Repr

/-- Embeds `class SparkifyError` from `errors.ts`: a message plus an exit code. -/
structure SparkifyError where
  message : String
  code : ExitCode
deriving DecidableEq, Repr

/-! ### Character and string primitives -/

/-- The ASCII whitespace characters matched by the JS `\s` class (and by
`String.prototype.trim`); Unicode-only space characters are not modelled. -/
def isJsSpace (c : Char) : Bool :=
  c = ' ' ∨ c = '\t' ∨ c = '\n' ∨ c = '\r' ∨ c = Char.ofNat 11 ∨ c = Char.ofNat 12

/-- Embeds `String.prototype.trim`. -/
def jsTrim (s : String) : String :=
  ⟨((s.data.dropWhile isJsSpace).reverse.dropWhile isJsSpace).reverse⟩

/-- One step of `replace(/\s+/g, " ")`: the Boolean records whether the
previous character was part of a whitespace run. -/
def collapseWsGo : List Char → Bool → List Char
  | [], _ => []
  | c :: rest, inRun =>
    if isJsSpace c then
      if inRun then collapseWsGo rest true else ' ' :: collapseWsGo rest true
    else c :: collapseWsGo rest false

/-- Embeds `value.trim().replace(/\s+/g, " ")` (used to normalise operation
shorthand references in `workspace.ts`). -/
def normalizeWs (s : String) : String :=
  ⟨collapseWsGo (jsTrim s).data false⟩

/-- Embeds JS `<` on characters (code-point comparison). -/
def charLt (a b : Char) : Bool := a < b

/-- Code-point lexicographic comparison of character lists; embeds the JS
relational operators on strings. -/
def charListLt : List Char → List Char → Bool
  | _, [] => false
  | [], _ :: _ => true
  | a :: as, b :: bs =>
    if charLt a b then true else if charLt b a then false else charListLt as bs

/-- JS string `<`, embedded as code-point comparison. -/
def locLt (a b : String) : Bool := charListLt a.data b.data

/-- Embeds `a.localeCompare(b)` as code-point comparison (the default host
collation is locale dependent; all ordering contracts proved here are stated
for this code-point model). -/
def locCompare (a b : String) : Int :=
  if locLt a b then -1 else if locLt b a then 1 else 0

/-- Embeds `s.startsWith(pre)` via character lists. -/
def listIsPre : List Char → List Char → Bool
  | [], _ => true
  | _ :: _, [] => false
  | p :: ps, c :: cs => if p = c then listIsPre ps cs else false

/-- Embeds `String.prototype.startsWith`. -/
def strStarts (s pre : String) : Bool := listIsPre pre.data s.data

/-- Embeds `String.prototype.endsWith`. -/
def strEnds (s suf : String) : Bool := listIsPre suf.data.reverse s.data.reverse

/-- Embeds `s.includes(c)` for a single-character needle. -/
def strHasChar (s : String) (c : Char) : Bool := s.data.contains c

/-- Embeds JS number-to-string conversion (template literal `${n}`) for the
natural numbers used as collision suffixes: base-10 digits. -/
def digitChar (d : Nat) : Char := Char.ofNat (48 + d)

/-- Base-10 digits, least significant first; the first argument is fuel
bounding the number of digits (the value itself always suffices). -/
def digitsRevAux : Nat → Nat → List Nat
  | _, 0 => []
  | 0, _ + 1 => []
  | fuel + 1, n + 1 => ((n + 1) % 10) :: digitsRevAux fuel ((n + 1) / 10)

/-- Base-10 digits of `n`, least significant first (`[]` for `0`). -/
def digitsRev (n : Nat) : List Nat := digitsRevAux n n

/-- Embeds `${n}` for a natural number `n`. -/
def natDecimal (n : Nat) : String :=
  if n = 0 then "0" else ⟨((digitsRev n).reverse.map digitChar)⟩

/-! #### Basic lemmas about the string primitives -/

theorem charListLt_irrefl : ∀ (l : List Char), charListLt l l = false := by
  intro l
  induction l with
  | nil => rfl
  | cons a as ih => simp [charListLt, charLt, ih]

theorem charLt_or_eq (a b : Char) :
    charLt a b = true ∨ charLt b a = true ∨ a = b := by
  rcases lt_trichotomy a b with h | h | h
  · exact Or.inl (by simpa [charLt] using h)
  · exact Or.inr (Or.inr h)
  · exact Or.inr (Or.inl (by simpa [charLt] using h))

theorem charLt_asymm {a b : Char} (h : charLt a b = true) : charLt b a = false := by
  simp only [charLt] at h ⊢
  simp [asymm (of_decide_eq_true h)]

theorem charLt_lt_trans {a b c : Char} (h₁ : charLt a b = true) (h₂ : charLt b c = true) :
    charLt a c = true := by
  simp only [charLt] at h₁ h₂ ⊢
  exact decide_eq_true (lt_trans (of_decide_eq_true h₁) (of_decide_eq_true h₂))

theorem charLt_irrefl (a : Char) : charLt a a = false := by
  simp [charLt]

theorem charListLt_trans : ∀ {a b c : List Char},
    charListLt a b = true → charListLt b c = true → charListLt a c = true := by
  intro a
  induction a with
  | nil =>
    intro b c hab hbc
    cases b with
    | nil => simp [charListLt] at hab
    | cons x xs =>
      cases c with
      | nil => simp [charListLt] at hbc
      | cons y ys => simp [charListLt]
  | cons x xs ih =>
    intro b c hab hbc
    cases b with
    | nil => simp [charListLt] at hab
    | cons y ys =>
      cases c with
      | nil => simp [charListLt] at hbc
      | cons z zs =>
        simp only [charListLt] at hab hbc ⊢
        rcases charLt_or_eq x y with hxy | hxy | hxy
        · rcases charLt_or_eq y z with hyz | hyz | hyz
          · simp [charLt_lt_trans hxy hyz]
          · simp [charLt_asymm hyz, hyz] at hbc
          · subst hyz
            simp [hxy]
        · simp [charLt_asymm hxy, hxy] at hab
        · subst hxy
          rcases charLt_or_eq x z with hxz | hxz | hxz
          · simp [hxz]
          · simp [charLt_asymm hxz, hxz] at hbc
          · subst hxz
            simp only [charLt_irrefl, if_false] at hab hbc ⊢
            exact ih hab hbc

theorem charListLt_eq_of_not {a b : List Char}
    (h₁ : charListLt a b = false) (h₂ : charListLt b a = false) : a = b := by
  induction a generalizing b with
  | nil =>
    cases b with
    | nil => rfl
    | cons y ys => simp [charListLt] at h₁
  | cons x xs ih =>
    cases b with
    | nil => simp [charListLt] at h₂
    | cons y ys =>
      simp only [charListLt] at h₁ h₂
      rcases charLt_or_eq x y with hxy | hxy | hxy
      · simp [hxy] at h₁
      · simp [hxy] at h₂
      · subst hxy
        simp only [charLt_irrefl, if_false] at h₁ h₂
        rw [ih h₁ h₂]

theorem locLt_trans {a b c : String} (h₁ : locLt a b = true) (h₂ : locLt b c = true) :
    locLt a c = true :=
  charListLt_trans h₁ h₂

theorem locLt_irrefl (a : String) : locLt a a = false :=
  charListLt_irrefl a.data

theorem locLt_eq_of_not {a b : String} (h₁ : locLt a b = false) (h₂ : locLt b a = false) :
    a = b :=
  String.ext (charListLt_eq_of_not h₁ h₂)

theorem locLt_asymm {a b : String} (h : locLt a b = true) : locLt b a = false := by
  by_contra hc
  have hba : locLt b a = true := by
    cases hne : locLt b a with
    | false => exact absurd hne hc
    | true => rfl
  have := locLt_trans h hba
  rw [locLt_irrefl] at this
  exact Bool.false_ne_true this

/-! ### `slugify` (`openapi.ts` lines 11–17) -/

/-- The characters kept by the `[^a-z0-9]` character class (after
lowercasing): ASCII lowercase letters and digits. -/
def isSlugChar (c : Char) : Bool :=
  ('a' ≤ c ∧ c ≤ 'z') ∨ ('0' ≤ c ∧ c ≤ '9')

/-- One pass of `replace(/[^a-z0-9]+/g, "-")`: each maximal run of
non-slug characters becomes a single hyphen.  The Boolean records whether
the previous character belonged to such a run. -/
def collapseNonSlugGo : List Char → Bool → List Char
  | [], _ => []
  | c :: rest, inRun =>
    if isSlugChar c then c :: collapseNonSlugGo rest false
    else if inRun then collapseNonSlugGo rest true
    else '-' :: collapseNonSlugGo rest true

/-- Embeds `replace(/^-+|-+$/g, "")`: strip leading and trailing hyphen runs. -/
def trimHyphens (l : List Char) : List Char :=
  ((l.dropWhile (· = '-')).reverse.dropWhile (· = '-')).reverse

/-- Embeds `slugify` from `openapi.ts`: lowercase, replace runs of
non-alphanumeric characters with `-`, strip leading/trailing hyphens, keep
the first 64 characters. -/
def slugify (value : String) : String :=
  ⟨(trimHyphens (collapseNonSlugGo (value.data.map Char.toLower) false)).take 64⟩

/-- Embeds JS `x || y` for a string `x` (empty string is falsy). -/
def strOr (x y : String) : String := if x = "" then y else x

/-- Embeds JS `x || y` where `x : string | undefined`. -/
def jsOr (x : Option String) (y : String) : String :=
  match x with
  | none => y
  | some s => strOr s y

/-! #### Lemmas about `slugify` -/

theorem collapseNonSlugGo_chars (l : List Char) (b : Bool) :
    ∀ c ∈ collapseNonSlugGo l b, isSlugChar c = true ∨ c = '-' := by
  induction l generalizing b with
  | nil => simp [collapseNonSlugGo]
  | cons x xs ih =>
    intro c hc
    simp only [collapseNonSlugGo] at hc
    by_cases hx : isSlugChar x = true
    · simp only [hx, if_true] at hc
      rcases List.mem_cons.mp hc with h | h
      · exact h ▸ Or.inl hx
      · exact ih false c h
    · simp only [hx, if_false] at hc
      cases b with
      | true => exact ih true c (by simpa using hc)
      | false =>
        rcases List.mem_cons.mp (by simpa using hc) with h | h
        · exact Or.inr h
        · exact ih true c h

theorem trimHyphens_subset (l : List Char) : ∀ c ∈ trimHyphens l, c ∈ l := by
  intro c hc
  simp only [trimHyphens, List.mem_reverse] at hc
  have h₁ := List.dropWhile_sublist (l := (l.dropWhile (· = '-')).reverse) (p := (· = '-'))
  have h₂ := List.dropWhile_sublist (l := l) (p := (· = '-'))
  have := h₁.mem hc
  rw [List.mem_reverse] at this
  exact h₂.mem this

/-- Every character of a `slugify` result is a lowercase letter, a digit or
a hyphen. -/
theorem slugify_chars (value : String) :
    ∀ c ∈ (slugify value).data, isSlugChar c = true ∨ c = '-' := by
  intro c hc
  simp only [slugify] at hc
  have hmem : c ∈ trimHyphens (collapseNonSlugGo (value.data.map Char.toLower) false) :=
    (List.take_sublist _ _).mem hc
  exact collapseNonSlugGo_chars _ _ c (trimHyphens_subset _ c hmem)

/-- A `slugify` result has at most 64 characters. -/
theorem slugify_length (value : String) : (slugify value).length ≤ 64 := by
  simp only [slugify, String.length]
  simp

/-- A slug never contains a path separator. -/
theorem slugify_no_slash (value : String) : '/' ∉ (slugify value).data := by
  intro h
  rcases slugify_chars value '/' h with hs | hs
  · exact absurd hs (by decide)
  · exact absurd hs (by decide)

/-! #### Injectivity of the decimal printer -/

/-- Recombines a least-significant-first digit list into a number. -/
def valRev : List Nat → Nat
  | [] => 0
  | d :: ds => d + 10 * valRev ds

theorem digitsRevAux_val : ∀ (fuel n : Nat), n ≤ fuel → valRev (digitsRevAux fuel n) = n := by
  intro fuel
  induction fuel with
  | zero =>
    intro n hn
    interval_cases n
    rfl
  | succ f ih =>
    intro n hn
    cases n with
    | zero => rfl
    | succ m =>
      have hdiv : (m + 1) / 10 ≤ f := by
        have := Nat.div_le_self (m + 1) 10
        have h10 : (m + 1) / 10 < m + 1 := Nat.div_lt_self (Nat.succ_pos m) (by omega)
        omega
      simp only [digitsRevAux, valRev, ih _ hdiv]
      omega

theorem digitsRev_val (n : Nat) : valRev (digitsRev n) = n :=
  digitsRevAux_val n n le_rfl

theorem digitsRevAux_lt10 : ∀ (fuel n : Nat), ∀ d ∈ digitsRevAux fuel n, d < 10 := by
  intro fuel
  induction fuel with
  | zero =>
    intro n d hd
    cases n <;> simp [digitsRevAux] at hd
  | succ f ih =>
    intro n d hd
    cases n with
    | zero => simp [digitsRevAux] at hd
    | succ m =>
      simp only [digitsRevAux, List.mem_cons] at hd
      rcases hd with hd | hd
      · subst hd
        exact Nat.mod_lt _ (by omega)
      · exact ih _ d hd

theorem digitChar_inj {a b : Nat} (ha : a < 10) (hb : b < 10)
    (h : digitChar a = digitChar b) : a = b := by
  interval_cases a <;> interval_cases b <;> first | rfl | (exact absurd h (by decide))

theorem map_digitChar_inj : ∀ {l₁ l₂ : List Nat},
    (∀ d ∈ l₁, d < 10) → (∀ d ∈ l₂, d < 10) →
    l₁.map digitChar = l₂.map digitChar → l₁ = l₂ := by
  intro l₁
  induction l₁ with
  | nil =>
    intro l₂ _ _ h
    cases l₂ with
    | nil => rfl
    | cons y ys => simp at h
  | cons x xs ih =>
    intro l₂ h₁ h₂ h
    cases l₂ with
    | nil => simp at h
    | cons y ys =>
      simp only [List.map_cons, List.cons.injEq] at h
      have hx : x = y :=
        digitChar_inj (h₁ x (by simp)) (h₂ y (by simp)) h.1
      have hxs : xs = ys :=
        ih (fun d hd => h₁ d (by simp [hd])) (fun d hd => h₂ d (by simp [hd])) h.2
      rw [hx, hxs]

theorem digitsRev_eq_nil_iff (n : Nat) : digitsRev n = [] ↔ n = 0 := by
  constructor
  · intro h
    have := digitsRev_val n
    rw [h] at this
    simpa [valRev] using this.symm
  · intro h
    subst h
    rfl

/-- The decimal printer is injective: distinct collision suffixes produce
distinct strings. -/
theorem natDecimal_inj {n m : Nat} (h : natDecimal n = natDecimal m) : n = m := by
  by_cases hn : n = 0 <;> by_cases hm : m = 0
  · omega
  · exfalso
    subst hn
    simp only [natDecimal, reduceIte, if_neg hm] at h
    have hdata : ("0" : String).data = ((digitsRev m).reverse.map digitChar) := by
      rw [h]
    have h0 : ((digitsRev m).reverse.map digitChar) = ['0'] := hdata.symm
    have hlen : (digitsRev m).length = 1 := by
      have := congrArg List.length h0
      simpa using this
    rcases List.length_eq_one.mp hlen with ⟨d, hd⟩
    rw [hd] at h0
    simp only [List.reverse_cons, List.reverse_nil, List.nil_append, List.map_cons,
      List.map_nil] at h0
    have hd10 : d < 10 := digitsRevAux_lt10 m m d (by rw [← digitsRev]; simp [hd])
    have : d = 0 := by
      have h0' : digitChar d = '0' := by simpa using h0
      exact digitChar_inj hd10 (by omega) (by simpa [digitChar] using h0')
    subst this
    have := digitsRev_val m
    rw [hd] at this
    simp [valRev] at this
    exact hm this.symm
  · exfalso
    subst hm
    simp only [natDecimal, reduceIte, if_neg hn] at h
    have h0 : ((digitsRev n).reverse.map digitChar) = ['0'] := by
      have := congrArg String.data h
      simpa using this
    have hlen : (digitsRev n).length = 1 := by
      have := congrArg List.length h0
      simpa using this
    rcases List.length_eq_one.mp hlen with ⟨d, hd⟩
    rw [hd] at h0
    simp only [List.reverse_cons, List.reverse_nil, List.nil_append, List.map_cons,
      List.map_nil] at h0
    have hd10 : d < 10 := digitsRevAux_lt10 n n d (by rw [← digitsRev]; simp [hd])
    have : d = 0 := by
      have h0' : digitChar d = '0' := by simpa using h0
      exact digitChar_inj hd10 (by omega) (by simpa [digitChar] using h0')
    subst this
    have := digitsRev_val n
    rw [hd] at this
    simp [valRev] at this
    exact hn this.symm
  · simp only [natDecimal, if_neg hn, if_neg hm] at h
    have hdata := congrArg String.data h
    simp only at hdata
    have hrev : (digitsRev n).reverse = (digitsRev m).reverse :=
      map_digitChar_inj
        (fun d hd => digitsRevAux_lt10 n n d (by simpa using hd))
        (fun d hd => digitsRevAux_lt10 m m d (by simpa using hd))
        hdata
    have hdig : digitsRev n = digitsRev m := by
      have := congrArg List.reverse hrev
      simpa using this
    have := digitsRev_val n
    rw [hdig, digitsRev_val] at this
    exact this.symm

/-! ### OpenAPI data model and operation-page synthesis (`openapi.ts`) -/

/-- The `HTTP_METHODS` constant of `openapi.ts`, as an enumeration. -/
inductive HttpMethod where
  | get
  | post
  | put
  | patch
  | delete
  | options
  | head
deriving DecidableEq, Repr

/-- The iteration order of the `HTTP_METHODS` constant. -/
def httpMethods : List HttpMethod :=
  [HttpMethod.get, HttpMethod.post, HttpMethod.put, HttpMethod.patch,
   HttpMethod.delete, HttpMethod.options, HttpMethod.head]

/-- The lowercase method key, as it appears in `HTTP_METHODS`. -/
def methodName : HttpMethod → String
  | HttpMethod.get => "get"
  | HttpMethod.post => "post"
  | HttpMethod.put => "put"
  | HttpMethod.patch => "patch"
  | HttpMethod.delete => "delete"
  | HttpMethod.options => "options"
  | HttpMethod.head => "head"

/-- Embeds `method.toUpperCase()` for the fixed method keys. -/
def methodUpper : HttpMethod → String
  | HttpMethod.get => "GET"
  | HttpMethod.post => "POST"
  | HttpMethod.put => "PUT"
  | HttpMethod.patch => "PATCH"
  | HttpMethod.delete => "DELETE"
  | HttpMethod.options => "OPTIONS"
  | HttpMethod.head => "HEAD"

/-- The fields of an OpenAPI operation object that `buildOperationPages`
reads: `operationId`, `tags`, `summary` and `description` (all optional in
the document). -/
structure Operation where
  operationId : Option String := none
  tags : List String := []
  summary : Option String := none
  description : Option String := none
deriving DecidableEq, Repr

/-- A path item object: at most one operation per HTTP method key (a JS
object cannot repeat a key). -/
structure PathItem where
  getOp : Option Operation := none
  postOp : Option Operation := none
  putOp : Option Operation := none
  patchOp : Option Operation := none
  deleteOp : Option Operation := none
  optionsOp : Option Operation := none
  headOp : Option Operation := none
deriving DecidableEq, Repr

/-- Embeds the property read `pathItem[method]`. -/
def methodOp (item : PathItem) : HttpMethod → Option Operation
  | HttpMethod.get => item.getOp
  | HttpMethod.post => item.postOp
  | HttpMethod.put => item.putOp
  | HttpMethod.patch => item.patchOp
  | HttpMethod.delete => item.deleteOp
  | HttpMethod.options => item.optionsOp
  | HttpMethod.head => item.headOp

/-- `schema.paths`, as its entries in JS insertion/iteration order (path
keys begin with `/`, so they are never array-index keys and iterate in
insertion order). -/
abbrev OpenApiPaths := List (String × PathItem)

/-- Embeds the `OpenApiOperation` record from `types.ts`. -/
structure OpenApiOperation where
  id : String
  method : String
  path : String
  summary : String
  description : Option String
  tag : String
  pagePath : String
deriving DecidableEq, Repr

/-- Embeds `toApiRoot` from `openapi.ts`. -/
def toApiRoot (apiRoot : String) : String :=
  let prefixed := if strStarts apiRoot "/" then apiRoot else "/" ++ apiRoot
  if strEnds prefixed "/" ∧ prefixed ≠ "/" then ⟨prefixed.data.dropLast⟩ else prefixed

/-- Embeds `.replace(/^\//, "")`: drop one leading slash. -/
def stripLeadingSlash (s : String) : String :=
  match s.data with
  | '/' :: rest => ⟨rest⟩
  | _ => s

/-- The `normalizedApiRoot` local of `buildOperationPages`. -/
def normalizedApiRoot (apiRoot : String) : String :=
  stripLeadingSlash (toApiRoot apiRoot)

/-- A collision candidate `` `${idBase}-${suffix}` ``. -/
def collisionCandidate (base : String) (k : Nat) : String :=
  base ++ "-" ++ natDecimal k

/-- The least index `i` (bounded by `used.length`, which always suffices:
`findSuffix_isSome` below) such that `` `${base}-${i+2}` `` is unused.  This
is the value the `while (usedPaths.has(pagePath))` loop of
`buildOperationPages` terminates with. -/
def findSuffix (used : List String) (base : String) : Option Nat :=
  (List.range (used.length + 1)).find?
    (fun i => !(used.contains (collisionCandidate base (i + 2))))

/-- The page path chosen for a base slug given the set of already used
paths: the base itself when unused, else the first free numeric-suffix
candidate, exactly as the `while` loop computes it. -/
def freshPagePath (used : List String) (base : String) : String :=
  if used.contains base then
    match findSuffix used base with
    | some i => collisionCandidate base (i + 2)
    | none => collisionCandidate base (used.length + 3)
  else base

/-- Embeds `typeof operation.tags?.[0] === "string" ? operation.tags[0] : "General"`. -/
def headTagOf (op : Operation) : String :=
  match op.tags.head? with
  | some t => t
  | none => "General"

/-- Embeds `slugify(tag) || "general"`. -/
def opTagSlug (op : Operation) : String :=
  strOr (slugify (headTagOf op)) "general"

/-- Embeds `` slugify(operation.operationId || `${method}-${rawPath}`) || `${method}-endpoint` ``. -/
def opIdBase (op : Operation) (m : HttpMethod) (rawPath : String) : String :=
  strOr (slugify (jsOr op.operationId (methodName m ++ "-" ++ rawPath)))
    (methodName m ++ "-endpoint")

/-- The un-suffixed page path `` `${normalizedApiRoot}/${tagSlug}/${idBase}` ``. -/
def opBasePath (normRoot rawPath : String) (m : HttpMethod) (op : Operation) : String :=
  normRoot ++ "/" ++ opTagSlug op ++ "/" ++ opIdBase op m rawPath

/-- Embeds the `(typeof operation.summary === "string" && operation.summary.trim()) || fallback`
computation of the page summary. -/
def opSummary (op : Operation) (m : HttpMethod) (rawPath : String) : String :=
  match op.summary with
  | some s => strOr (jsTrim s) (methodUpper m ++ " " ++ rawPath)
  | none => methodUpper m ++ " " ++ rawPath

/-- The record pushed by `buildOperationPages` for one operation. -/
def mkOperationPage (rawPath : String) (m : HttpMethod) (op : Operation)
    (pagePath : String) : OpenApiOperation :=
  { id := op.operationId.getD (methodUpper m ++ " " ++ rawPath)
    method := methodUpper m
    path := rawPath
    summary := opSummary op m rawPath
    description := op.description
    tag := headTagOf op
    pagePath := pagePath }

/-- The inner loop of `buildOperationPages` over the HTTP methods of one
path item, threading the `usedPaths` set. -/
def buildPagesMethods (normRoot rawPath : String) (item : PathItem) :
    List HttpMethod → List String → List OpenApiOperation × List String
  | [], used => ([], used)
  | m :: ms, used =>
    match methodOp item m with
    | none => buildPagesMethods normRoot rawPath item ms used
    | some op =>
      let pagePath := freshPagePath used (opBasePath normRoot rawPath m op)
      let rest := buildPagesMethods normRoot rawPath item ms (pagePath :: used)
      (mkOperationPage rawPath m op pagePath :: rest.1, rest.2)

/-- The outer loop of `buildOperationPages` over `schema.paths` entries. -/
def buildPagesPaths (normRoot : String) :
    OpenApiPaths → List String → List OpenApiOperation × List String
  | [], used => ([], used)
  | (rawPath, item) :: rest, used =>
    let here := buildPagesMethods normRoot rawPath item httpMethods used
    let tail := buildPagesPaths normRoot rest here.2
    (here.1 ++ tail.1, tail.2)

/-- The final comparator of `buildOperationPages`: `localeCompare` on the
tag, then the path, then the method. -/
def operationCmp (l r : OpenApiOperation) : Int :=
  if l.tag ≠ r.tag then locCompare l.tag r.tag
  else if l.path ≠ r.path then locCompare l.path r.path
  else locCompare l.method r.method

/-- The sort relation induced by `operationCmp` (an element precedes
another when the comparator is non-positive). -/
def operationLe (l r : OpenApiOperation) : Prop := operationCmp l r ≤ 0

instance : DecidableRel operationLe := fun l r =>
  inferInstanceAs (Decidable (operationCmp l r ≤ 0))

/-- Embeds `buildOperationPages` from `openapi.ts` (endpoint-pages mode):
synthesize one page per operation with collision-safe slugged paths, then
sort by (tag, path, method). -/
def buildOperationPages (schema : OpenApiPaths) (apiRoot : String) :
    List OpenApiOperation :=
  List.insertionSort operationLe (buildPagesPaths (normalizedApiRoot apiRoot) schema []).1

/-- Embeds `countOperations` from `openapi.ts`. -/
def countPathItem (item : PathItem) : Nat :=
  (httpMethods.filter (fun m => (methodOp item m).isSome)).length

/-- Embeds `countOperations` from `openapi.ts` (the outer loop). -/
def countOperations (schema : OpenApiPaths) : Nat :=
  (schema.map (fun entry => countPathItem entry.2)).sum

/-- Lexicographic order on the triple (tag, path, method) under code-point
string comparison: the ordering contract of the operation-page list. -/
def operationLexLe (l r : OpenApiOperation) : Prop :=
  locLt l.tag r.tag = true ∨
    (l.tag = r.tag ∧
      (locLt l.path r.path = true ∨
        (l.path = r.path ∧ locLt r.method l.method = false)))

/-! #### Ordering lemmas -/

theorem locCompare_nonpos_iff (a b : String) :
    locCompare a b ≤ 0 ↔ locLt b a = false := by
  unfold locCompare
  by_cases h₁ : locLt a b = true
  · simp [h₁, locLt_asymm h₁]
  · by_cases h₂ : locLt b a = true
    · simp [h₁, h₂]
    · simp only [h₁, h₂, if_false]
      simp only [Bool.not_eq_true] at h₂
      simp [h₂]

theorem locLt_false_iff {a b : String} (h : a ≠ b) :
    locLt b a = false ↔ locLt a b = true := by
  constructor
  · intro h'
    cases hab : locLt a b with
    | true => rfl
    | false => exact absurd (locLt_eq_of_not hab h') h
  · exact locLt_asymm

theorem operationLe_iff (l r : OpenApiOperation) :
    operationLe l r ↔ operationLexLe l r := by
  unfold operationLe operationCmp operationLexLe
  by_cases ht : l.tag = r.tag
  · by_cases hp : l.path = r.path
    · rw [if_neg (by simp [ht]), if_neg (by simp [hp]), locCompare_nonpos_iff]
      constructor
      · intro h
        exact Or.inr ⟨ht, Or.inr ⟨hp, h⟩⟩
      · rintro (h | ⟨-, h | ⟨-, h⟩⟩)
        · rw [ht] at h
          simp [locLt_irrefl] at h
        · rw [hp] at h
          simp [locLt_irrefl] at h
        · exact h
    · rw [if_neg (by simp [ht]), if_pos (by simp [hp]), locCompare_nonpos_iff,
        locLt_false_iff hp]
      constructor
      · intro h
        exact Or.inr ⟨ht, Or.inl h⟩
      · rintro (h | ⟨-, h | ⟨hpe, -⟩⟩)
        · rw [ht] at h
          simp [locLt_irrefl] at h
        · exact h
        · exact absurd hpe hp
  · rw [if_pos (by simp [ht]), locCompare_nonpos_iff, locLt_false_iff ht]
    constructor
    · intro h
      exact Or.inl h
    · rintro (h | ⟨hte, -⟩)
      · exact h
      · exact absurd hte ht

theorem operationLexLe_trans {a b c : OpenApiOperation}
    (h₁ : operationLexLe a b) (h₂ : operationLexLe b c) : operationLexLe a c := by
  unfold operationLexLe at *
  rcases h₁ with h₁ | ⟨ht₁, h₁⟩
  · rcases h₂ with h₂ | ⟨ht₂, _⟩
    · exact Or.inl (locLt_trans h₁ h₂)
    · exact Or.inl (ht₂ ▸ h₁)
  · rcases h₂ with h₂ | ⟨ht₂, h₂⟩
    · exact Or.inl (ht₁ ▸ h₂)
    · refine Or.inr ⟨ht₁.trans ht₂, ?_⟩
      rcases h₁ with h₁ | ⟨hp₁, h₁⟩
      · rcases h₂ with h₂ | ⟨hp₂, _⟩
        · exact Or.inl (locLt_trans h₁ h₂)
        · exact Or.inl (hp₂ ▸ h₁)
      · rcases h₂ with h₂ | ⟨hp₂, h₂⟩
        · exact Or.inl (hp₁ ▸ h₂)
        · refine Or.inr ⟨hp₁.trans hp₂, ?_⟩
          cases hca : locLt c.method a.method with
          | false => rfl
          | true =>
            exfalso
            by_cases hab : locLt a.method b.method = true
            · exact absurd (locLt_trans hca hab) (by simp [h₂])
            · have hab' : locLt a.method b.method = false := by
                cases hv : locLt a.method b.method with
                | false => rfl
                | true => exact absurd hv hab
              have heq : a.method = b.method := locLt_eq_of_not hab' h₁
              rw [heq] at hca
              exact absurd hca (by simp [h₂])

instance : IsTrans OpenApiOperation operationLe := by
  constructor
  intro a b c h₁ h₂
  rw [operationLe_iff] at *
  exact operationLexLe_trans h₁ h₂

instance : IsTotal OpenApiOperation operationLe := by
  constructor
  intro a b
  rw [operationLe_iff, operationLe_iff]
  unfold operationLexLe
  by_cases ht : a.tag = b.tag
  · by_cases hp : a.path = b.path
    · by_cases hba : locLt b.method a.method = true
      · exact Or.inr (Or.inr ⟨ht.symm, Or.inr ⟨hp.symm, locLt_asymm hba⟩⟩)
      · exact Or.inl (Or.inr ⟨ht, Or.inr ⟨hp, by simpa using hba⟩⟩)
    · by_cases hab : locLt a.path b.path = true
      · exact Or.inl (Or.inr ⟨ht, Or.inl hab⟩)
      · refine Or.inr (Or.inr ⟨ht.symm, Or.inl ?_⟩)
        exact (locLt_false_iff (Ne.symm hp)).mp (by simpa using hab)
  · by_cases hab : locLt a.tag b.tag = true
    · exact Or.inl (Or.inl hab)
    · exact Or.inr (Or.inl ((locLt_false_iff (Ne.symm ht)).mp (by simpa using hab)))

/-! #### Collision-suffix lemmas -/

theorem string_contains_iff (l : List String) (x : String) :
    l.contains x = true ↔ x ∈ l := by
  simp [List.contains]

theorem collisionCandidate_inj (base : String) {j k : Nat}
    (h : collisionCandidate base j = collisionCandidate base k) : j = k := by
  have hdata := congrArg String.data h
  simp only [collisionCandidate, String.data_append, List.append_assoc] at hdata
  have h₁ := List.append_cancel_left hdata
  have h₂ := List.append_cancel_left h₁
  exact natDecimal_inj (String.ext h₂)

/-- The bounded search of `findSuffix` always succeeds: among
`used.length + 1` pairwise-distinct candidates at least one is unused.
This is exactly why the `while` loop of `buildOperationPages` terminates. -/
theorem findSuffix_isSome (used : List String) (base : String) :
    (findSuffix used base).isSome := by
  cases hfind : findSuffix used base with
  | some i => rfl
  | none =>
    exfalso
    have hall := List.find?_eq_none.mp hfind
    have hsub : ∀ i ∈ List.range (used.length + 1),
        collisionCandidate base (i + 2) ∈ used := by
      intro i hi
      have := hall i hi
      simp only [Bool.not_eq_true', Bool.not_eq_false] at this
      exact (string_contains_iff _ _).mp this
    have hinj : Function.Injective (fun i => collisionCandidate base (i + 2)) := by
      intro i j hij
      have := collisionCandidate_inj base hij
      omega
    have hnodup : ((List.range (used.length + 1)).map
        (fun i => collisionCandidate base (i + 2))).Nodup :=
      (List.nodup_range _).map hinj
    have hsub' : ((List.range (used.length + 1)).map
        (fun i => collisionCandidate base (i + 2))).toFinset ⊆ used.toFinset := by
      intro x hx
      rw [List.mem_toFinset] at hx ⊢
      rcases List.mem_map.mp hx with ⟨i, hi, rfl⟩
      exact hsub i hi
    have hcard₁ : ((List.range (used.length + 1)).map
        (fun i => collisionCandidate base (i + 2))).toFinset.card = used.length + 1 := by
      rw [List.toFinset_card_of_nodup hnodup]
      simp
    have hcard₂ : used.toFinset.card ≤ used.length := used.toFinset_card_le
    have := Finset.card_le_card hsub'
    omega

/-- The page path chosen by the collision loop is never already used. -/
theorem freshPagePath_not_mem (used : List String) (base : String) :
    freshPagePath used base ∉ used := by
  unfold freshPagePath
  by_cases hc : used.contains base = true
  · rw [if_pos hc]
    cases hfind : findSuffix used base with
    | none =>
      exfalso
      have := findSuffix_isSome used base
      rw [hfind] at this
      exact absurd this (by simp)
    | some i =>
      have hp := List.find?_some hfind
      simp only [Bool.not_eq_true'] at hp
      intro hmem
      simp only at hmem
      have hmem' : used.contains (collisionCandidate base (i + 2)) = true :=
        (string_contains_iff _ _).mpr hmem
      rw [hp] at hmem'
      exact Bool.false_ne_true hmem'
  · rw [if_neg hc]
    intro hmem
    exact hc ((string_contains_iff _ _).mpr hmem)

/-- The chosen page path is the base slug itself or a numeric-suffix
variant with suffix at least 2. -/
theorem freshPagePath_shape (used : List String) (base : String) :
    freshPagePath used base = base ∨
      ∃ k, 2 ≤ k ∧ freshPagePath used base = collisionCandidate base k := by
  unfold freshPagePath
  by_cases hc : used.contains base = true
  · rw [if_pos hc]
    cases hfind : findSuffix used base with
    | none => exact Or.inr ⟨used.length + 3, by omega, rfl⟩
    | some i => exact Or.inr ⟨i + 2, by omega, rfl⟩
  · rw [if_neg hc]
    exact Or.inl rfl

/-- When the base path is unused, no suffix is appended. -/
theorem freshPagePath_of_not_mem {used : List String} {base : String}
    (h : base ∉ used) : freshPagePath used base = base := by
  unfold freshPagePath
  rw [if_neg]
  intro hc
  exact h ((string_contains_iff _ _).mp hc)

/-! #### Structure of `buildOperationPages` -/

theorem buildPagesMethods_used (normRoot rawPath : String) (item : PathItem) :
    ∀ (ms : List HttpMethod) (used : List String),
      (buildPagesMethods normRoot rawPath item ms used).2 =
        ((buildPagesMethods normRoot rawPath item ms used).1.map
          OpenApiOperation.pagePath).reverse ++ used := by
  intro ms
  induction ms with
  | nil => intro used; rfl
  | cons m ms ih =>
    intro used
    cases hop : methodOp item m with
    | none => simp only [buildPagesMethods, hop]; exact ih used
    | some op =>
      simp only [buildPagesMethods, hop, List.map_cons, List.reverse_cons, List.append_assoc]
      rw [ih]
      rfl

theorem buildPagesMethods_nodup (normRoot rawPath : String) (item : PathItem) :
    ∀ (ms : List HttpMethod) (used : List String), used.Nodup →
      (buildPagesMethods normRoot rawPath item ms used).2.Nodup := by
  intro ms
  induction ms with
  | nil => intro used h; exact h
  | cons m ms ih =>
    intro used h
    cases hop : methodOp item m with
    | none => simp only [buildPagesMethods, hop]; exact ih used h
    | some op =>
      simp only [buildPagesMethods, hop]
      exact ih _ (List.nodup_cons.mpr ⟨freshPagePath_not_mem _ _, h⟩)

theorem buildPagesMethods_len (normRoot rawPath : String) (item : PathItem) :
    ∀ (ms : List HttpMethod) (used : List String),
      (buildPagesMethods normRoot rawPath item ms used).1.length =
        (ms.filter (fun m => (methodOp item m).isSome)).length := by
  intro ms
  induction ms with
  | nil => intro used; rfl
  | cons m ms ih =>
    intro used
    cases hop : methodOp item m with
    | none => simp [buildPagesMethods, hop, ih]
    | some op => simp [buildPagesMethods, hop, ih]

theorem buildPagesMethods_mem (normRoot rawPath : String) (item : PathItem)
    {m : HttpMethod} {op : Operation} (hop : methodOp item m = some op) :
    ∀ (ms : List HttpMethod) (used : List String), m ∈ ms →
      ∃ pp, mkOperationPage rawPath m op pp ∈
          (buildPagesMethods normRoot rawPath item ms used).1 ∧
        (pp = opBasePath normRoot rawPath m op ∨
          ∃ k, 2 ≤ k ∧ pp = collisionCandidate (opBasePath normRoot rawPath m op) k) := by
  intro ms
  induction ms with
  | nil => intro used h; exact absurd h (List.not_mem_nil m)
  | cons m' ms ih =>
    intro used hmem
    rcases List.mem_cons.mp hmem with heq | htail
    · subst heq
      simp only [buildPagesMethods, hop]
      refine ⟨freshPagePath used (opBasePath normRoot rawPath m op), List.mem_cons_self _ _, ?_⟩
      exact freshPagePath_shape used _
    · cases hop' : methodOp item m' with
      | none =>
        simp only [buildPagesMethods, hop']
        exact ih used htail
      | some op' =>
        simp only [buildPagesMethods, hop']
        rcases ih (freshPagePath used (opBasePath normRoot rawPath m' op') :: used) htail with
          ⟨pp, hin, hshape⟩
        exact ⟨pp, List.mem_cons_of_mem _ hin, hshape⟩

theorem buildPagesMethods_shape (normRoot rawPath : String) (item : PathItem) :
    ∀ (ms : List HttpMethod) (used : List String),
      ∀ page ∈ (buildPagesMethods normRoot rawPath item ms used).1,
        ∃ m op pp, m ∈ ms ∧ methodOp item m = some op ∧
          page = mkOperationPage rawPath m op pp ∧
          (pp = opBasePath normRoot rawPath m op ∨
            ∃ k, 2 ≤ k ∧ pp = collisionCandidate (opBasePath normRoot rawPath m op) k) := by
  intro ms
  induction ms with
  | nil => intro used page h; exact absurd h (List.not_mem_nil page)
  | cons m' ms ih =>
    intro used page hpage
    cases hop' : methodOp item m' with
    | none =>
      simp only [buildPagesMethods, hop'] at hpage
      rcases ih used page hpage with ⟨m, op, pp, hm, hop, heq, hshape⟩
      exact ⟨m, op, pp, List.mem_cons_of_mem _ hm, hop, heq, hshape⟩
    | some op' =>
      simp only [buildPagesMethods, hop'] at hpage
      rcases List.mem_cons.mp hpage with heq | htail
      · exact ⟨m', op', freshPagePath used (opBasePath normRoot rawPath m' op'),
          List.mem_cons_self _ _, hop', heq, freshPagePath_shape used _⟩
      · rcases ih _ page htail with ⟨m, op, pp, hm, hop, heq, hshape⟩
        exact ⟨m, op, pp, List.mem_cons_of_mem _ hm, hop, heq, hshape⟩

theorem buildPagesPaths_used (normRoot : String) :
    ∀ (schema : OpenApiPaths) (used : List String),
      (buildPagesPaths normRoot schema used).2 =
        ((buildPagesPaths normRoot schema used).1.map
          OpenApiOperation.pagePath).reverse ++ used := by
  intro schema
  induction schema with
  | nil => intro used; rfl
  | cons entry rest ih =>
    intro used
    obtain ⟨rawPath, item⟩ := entry
    simp only [buildPagesPaths, List.map_append, List.reverse_append, List.append_assoc]
    rw [ih, buildPagesMethods_used]

theorem buildPagesPaths_nodup (normRoot : String) :
    ∀ (schema : OpenApiPaths) (used : List String), used.Nodup →
      (buildPagesPaths normRoot schema used).2.Nodup := by
  intro schema
  induction schema with
  | nil => intro used h; exact h
  | cons entry rest ih =>
    intro used h
    obtain ⟨rawPath, item⟩ := entry
    simp only [buildPagesPaths]
    exact ih _ (buildPagesMethods_nodup _ _ _ _ _ h)

theorem buildPagesPaths_len (normRoot : String) :
    ∀ (schema : OpenApiPaths) (used : List String),
      (buildPagesPaths normRoot schema used).1.length = countOperations schema := by
  intro schema
  induction schema with
  | nil => intro used; rfl
  | cons entry rest ih =>
    intro used
    obtain ⟨rawPath, item⟩ := entry
    simp only [buildPagesPaths, List.length_append, countOperations, List.map_cons,
      List.sum_cons]
    rw [buildPagesMethods_len, ih]
    rfl

theorem buildPagesPaths_mem (normRoot : String)
    {rawPath : String} {item : PathItem} {m : HttpMethod} {op : Operation}
    (hop : methodOp item m = some op) :
    ∀ (schema : OpenApiPaths) (used : List String), (rawPath, item) ∈ schema →
      ∃ pp, mkOperationPage rawPath m op pp ∈ (buildPagesPaths normRoot schema used).1 ∧
        (pp = opBasePath normRoot rawPath m op ∨
          ∃ k, 2 ≤ k ∧ pp = collisionCandidate (opBasePath normRoot rawPath m op) k) := by
  intro schema
  induction schema with
  | nil => intro used h; exact absurd h (List.not_mem_nil _)
  | cons entry rest ih =>
    intro used hmem
    rcases List.mem_cons.mp hmem with heq | htail
    · subst heq
      simp only [buildPagesPaths]
      rcases buildPagesMethods_mem normRoot rawPath item hop httpMethods used
          (by cases m <;> simp [httpMethods]) with ⟨pp, hin, hshape⟩
      exact ⟨pp, List.mem_append_left _ hin, hshape⟩
    · obtain ⟨rawPath', item'⟩ := entry
      simp only [buildPagesPaths]
      rcases ih _ htail with ⟨pp, hin, hshape⟩
      exact ⟨pp, List.mem_append_right _ hin, hshape⟩

theorem buildPagesPaths_shape (normRoot : String) :
    ∀ (schema : OpenApiPaths) (used : List String),
      ∀ page ∈ (buildPagesPaths normRoot schema used).1,
        ∃ rawPath item m op pp, (rawPath, item) ∈ schema ∧ methodOp item m = some op ∧
          page = mkOperationPage rawPath m op pp ∧
          (pp = opBasePath normRoot rawPath m op ∨
            ∃ k, 2 ≤ k ∧ pp = collisionCandidate (opBasePath normRoot rawPath m op) k) := by
  intro schema
  induction schema with
  | nil => intro used page h; exact absurd h (List.not_mem_nil page)
  | cons entry rest ih =>
    intro used page hpage
    obtain ⟨rawPath', item'⟩ := entry
    simp only [buildPagesPaths] at hpage
    rcases List.mem_append.mp hpage with hhere | htail
    · rcases buildPagesMethods_shape normRoot rawPath' item' httpMethods used page hhere with
        ⟨m, op, pp, _, hop, heq, hshape⟩
      exact ⟨rawPath', item', m, op, pp, List.mem_cons_self _ _, hop, heq, hshape⟩
    · rcases ih _ page htail with ⟨rawPath, item, m, op, pp, hmem, hop, heq, hshape⟩
      exact ⟨rawPath, item, m, op, pp, List.mem_cons_of_mem _ hmem, hop, heq, hshape⟩

/-- The page paths produced by one run of `buildOperationPages` are
pairwise distinct. -/
theorem buildOperationPages_nodup (schema : OpenApiPaths) (apiRoot : String) :
    ((buildOperationPages schema apiRoot).map OpenApiOperation.pagePath).Nodup := by
  have hperm : (buildOperationPages schema apiRoot).Perm
      (buildPagesPaths (normalizedApiRoot apiRoot) schema []).1 :=
    List.perm_insertionSort _ _
  have hused := buildPagesPaths_used (normalizedApiRoot apiRoot) schema []
  have hnodup := buildPagesPaths_nodup (normalizedApiRoot apiRoot) schema [] List.nodup_nil
  rw [hused] at hnodup
  simp only [List.append_nil, List.nodup_reverse] at hnodup
  exact ((hperm.map OpenApiOperation.pagePath).nodup_iff).mpr hnodup

/-- The last `/`-separated segment of a page path (the operation segment of
a synthesized operation page path `root/tagSlug/opSlug`). -/
def lastSegment (s : String) : String :=
  ⟨(s.data.reverse.takeWhile (fun c => c ≠ '/')).reverse⟩

theorem opTagSlug_length (op : Operation) : (opTagSlug op).length ≤ 64 := by
  unfold opTagSlug strOr
  by_cases h : slugify (headTagOf op) = ""
  · rw [if_pos h]
    decide
  · rw [if_neg h]
    exact slugify_length _

theorem opIdBase_length (op : Operation) (m : HttpMethod) (rawPath : String) :
    (opIdBase op m rawPath).length ≤ 64 := by
  unfold opIdBase strOr
  by_cases h : slugify (jsOr op.operationId (methodName m ++ "-" ++ rawPath)) = ""
  · rw [if_pos h]
    cases m <;> decide
  · rw [if_neg h]
    exact slugify_length _

/-! ### Claim theorems about `buildOperationPages` -/

/-- **C2.** For every operation of every resolved source in endpoint-pages
mode, the synthesized page path is `{apiRoot}/{tagSlug}/{opSlug}` (with the
api root normalized, the tag the operation's first declared tag else
"General", the slug derived from the declared operationId else from
method+path), possibly extended by a numeric collision suffix `-k`, `k ≥ 2`,
when the base path is already taken; all page paths produced in one run are
pairwise distinct, and no operation page is overwritten (the output has
exactly one page per operation). -/
theorem operationPagePath_spec (schema : OpenApiPaths) (apiRoot rawPath : String)
    (item : PathItem) (m : HttpMethod) (op : Operation)
    (hmem : (rawPath, item) ∈ schema) (hop : methodOp item m = some op) :
    (∃ page ∈ buildOperationPages schema apiRoot,
        page.method = methodUpper m ∧ page.path = rawPath ∧ page.tag = headTagOf op ∧
        (page.pagePath =
            normalizedApiRoot apiRoot ++ "/" ++ opTagSlug op ++ "/" ++ opIdBase op m rawPath ∨
          ∃ k, 2 ≤ k ∧
            page.pagePath =
              collisionCandidate
                (normalizedApiRoot apiRoot ++ "/" ++ opTagSlug op ++ "/" ++
                  opIdBase op m rawPath) k))
    ∧ ((buildOperationPages schema apiRoot).map OpenApiOperation.pagePath).Nodup
    ∧ (buildOperationPages schema apiRoot).length = countOperations schema := by
  refine ⟨?_, buildOperationPages_nodup schema apiRoot, ?_⟩
  · rcases buildPagesPaths_mem (normalizedApiRoot apiRoot) hop schema [] hmem with
      ⟨pp, hin, hshape⟩
    refine ⟨mkOperationPage rawPath m op pp, ?_, rfl, rfl, rfl, ?_⟩
    · exact ((List.perm_insertionSort operationLe _).mem_iff).mpr hin
    · simpa [opBasePath] using hshape
  · rw [buildOperationPages, (List.perm_insertionSort operationLe _).length_eq]
    exact buildPagesPaths_len _ schema []

/-- A sample schema with two operations on one path, used to evaluate
`operationPagePath_spec` at a concrete input. -/
def petsSchema : OpenApiPaths :=
  [("/pets",
    { getOp := some { operationId := some "listPets", tags := ["Pets"] }
      postOp := some { operationId := some "createPet", tags := ["Pets"] } })]

theorem operationPagePath_spec_witness :
    ((buildOperationPages petsSchema "/api-reference").map OpenApiOperation.pagePath).Nodup
    ∧ (buildOperationPages petsSchema "/api-reference").length = countOperations petsSchema :=
  ⟨(operationPagePath_spec petsSchema "/api-reference" "/pets"
      { getOp := some { operationId := some "listPets", tags := ["Pets"] }
        postOp := some { operationId := some "createPet", tags := ["Pets"] } }
      HttpMethod.get { operationId := some "listPets", tags := ["Pets"] }
      (by decide) rfl).2.1,
   (operationPagePath_spec petsSchema "/api-reference" "/pets"
      { getOp := some { operationId := some "listPets", tags := ["Pets"] }
        postOp := some { operationId := some "createPet", tags := ["Pets"] } }
      HttpMethod.get { operationId := some "listPets", tags := ["Pets"] }
      (by decide) rfl).2.2⟩

/-- **C5.** The operation-page list returned for a resolved source is
sorted lexicographically by the triple (tag, path, method) — stated for the
code-point string comparison that embeds `localeCompare` — regardless of
the order of paths and methods in the source document. -/
theorem operationPages_sorted (schema : OpenApiPaths) (apiRoot : String) :
    List.Pairwise operationLexLe (buildOperationPages schema apiRoot) := by
  have h := List.sorted_insertionSort operationLe
    (buildPagesPaths (normalizedApiRoot apiRoot) schema []).1
  exact h.imp fun hab => (operationLe_iff _ _).mp hab

/-! #### Path-segment disjointness -/

theorem listSplitSlash : ∀ {b b' c c' : List Char}, '/' ∉ b → '/' ∉ b' →
    b ++ '/' :: c = b' ++ '/' :: c' → b = b' ∧ c = c' := by
  intro b
  induction b with
  | nil =>
    intro b' c c' _ hb' h
    cases b' with
    | nil => simpa using h
    | cons x xs =>
      simp only [List.nil_append, List.cons_append, List.cons.injEq] at h
      exact absurd (h.1 ▸ List.mem_cons_self x xs) hb'
  | cons x xs ih =>
    intro b' c c' hb hb' h
    cases b' with
    | nil =>
      simp only [List.cons_append, List.nil_append, List.cons.injEq] at h
      exact absurd (h.1 ▸ List.mem_cons_self x xs) hb
    | cons y ys =>
      simp only [List.cons_append, List.cons.injEq] at h
      obtain ⟨hxy, hrest⟩ := h
      have := ih (fun hm => hb (List.mem_cons_of_mem x hm))
        (fun hm => hb' (List.mem_cons_of_mem y hm)) hrest
      exact ⟨by rw [hxy, this.1], this.2⟩

theorem opTagSlug_no_slash (op : Operation) : '/' ∉ (opTagSlug op).data := by
  unfold opTagSlug strOr
  by_cases h : slugify (headTagOf op) = ""
  · rw [if_pos h]
    decide
  · rw [if_neg h]
    exact slugify_no_slash _

/-- Base paths with different tag slugs are distinct strings. -/
theorem opBasePath_ne_of_tagSlug {normRoot p₁ p₂ : String} {m₁ m₂ : HttpMethod}
    {op₁ op₂ : Operation} (h : opTagSlug op₁ ≠ opTagSlug op₂) :
    opBasePath normRoot p₁ m₁ op₁ ≠ opBasePath normRoot p₂ m₂ op₂ := by
  intro heq
  have hdata := congrArg String.data heq
  have hslash : ("/" : String).data = ['/'] := rfl
  simp only [opBasePath, String.data_append, hslash, List.append_assoc,
    List.cons_append, List.nil_append] at hdata
  have h₁ := List.append_cancel_left hdata
  simp only [List.cons.injEq, true_and] at h₁
  have := listSplitSlash (opTagSlug_no_slash op₁) (opTagSlug_no_slash op₂) h₁
  exact h (String.ext this.1)

/-- A source with two `getItem` operations whose first tags are the
distinct strings "A" and "a" (which slugify identically). -/
def tagClashSchema : OpenApiPaths :=
  [("/items", { getOp := some { operationId := some "getItem", tags := ["A"] } }),
   ("/things", { getOp := some { operationId := some "getItem", tags := ["a"] } })]

/-- **C9 counterexample.** Two operations sharing operationId `getItem`
under the *different* first tags "A" and "a" do NOT stay suffix-free: the
tags slugify to the same segment, so the second page receives the numeric
collision suffix `-2`, contradicting the claim as stated (which promises no
suffix whenever the first tags differ). -/
theorem distinctTags_suffix_counterexample :
    ∃ page ∈ buildOperationPages tagClashSchema "/api-reference",
      page.tag = "a" ∧ page.pagePath = "api-reference/a/getitem-2" := by
  decide

/-- A two-operation schema with one GET operation per path. -/
def twoOpSchema (p₁ p₂ : String) (op₁ op₂ : Operation) : OpenApiPaths :=
  [(p₁, { getOp := some op₁ }), (p₂, { getOp := some op₂ })]

/-- **C9 amended.** For a source with two operations sharing the same
operationId whose first tags have *distinct slugs*, resolution produces
exactly two operation pages, each at its own un-suffixed base path
`{apiRoot}/{ownTagSlug}/{opSlug}` (so each page sits under the directory
derived from its own tag and no numeric collision suffix is appended), and
the two page paths are distinct. -/
theorem distinctTagSlugs_no_suffix (p₁ p₂ oid root : String) (op₁ op₂ : Operation)
    (hid₁ : op₁.operationId = some oid) (hid₂ : op₂.operationId = some oid)
    (hTag : opTagSlug op₁ ≠ opTagSlug op₂) :
    (buildOperationPages (twoOpSchema p₁ p₂ op₁ op₂) root).length = 2 ∧
    mkOperationPage p₁ HttpMethod.get op₁
        (opBasePath (normalizedApiRoot root) p₁ HttpMethod.get op₁) ∈
      buildOperationPages (twoOpSchema p₁ p₂ op₁ op₂) root ∧
    mkOperationPage p₂ HttpMethod.get op₂
        (opBasePath (normalizedApiRoot root) p₂ HttpMethod.get op₂) ∈
      buildOperationPages (twoOpSchema p₁ p₂ op₁ op₂) root ∧
    opBasePath (normalizedApiRoot root) p₁ HttpMethod.get op₁ ≠
      opBasePath (normalizedApiRoot root) p₂ HttpMethod.get op₂ := by
  have hne : opBasePath (normalizedApiRoot root) p₁ HttpMethod.get op₁ ≠
      opBasePath (normalizedApiRoot root) p₂ HttpMethod.get op₂ :=
    opBasePath_ne_of_tagSlug hTag
  have hf₁ : freshPagePath [] (opBasePath (normalizedApiRoot root) p₁ HttpMethod.get op₁) =
      opBasePath (normalizedApiRoot root) p₁ HttpMethod.get op₁ :=
    freshPagePath_of_not_mem (List.not_mem_nil _)
  have hf₂ : freshPagePath [opBasePath (normalizedApiRoot root) p₁ HttpMethod.get op₁]
        (opBasePath (normalizedApiRoot root) p₂ HttpMethod.get op₂) =
      opBasePath (normalizedApiRoot root) p₂ HttpMethod.get op₂ := by
    refine freshPagePath_of_not_mem ?_
    simp only [List.mem_singleton]
    exact fun h => hne h.symm
  have hpre : (buildPagesPaths (normalizedApiRoot root) (twoOpSchema p₁ p₂ op₁ op₂) []).1 =
      [mkOperationPage p₁ HttpMethod.get op₁
          (opBasePath (normalizedApiRoot root) p₁ HttpMethod.get op₁),
        mkOperationPage p₂ HttpMethod.get op₂
          (opBasePath (normalizedApiRoot root) p₂ HttpMethod.get op₂)] := by
    simp only [twoOpSchema, buildPagesPaths, buildPagesMethods, httpMethods, methodOp, hf₁, hf₂]
    rfl
  have hperm : (buildOperationPages (twoOpSchema p₁ p₂ op₁ op₂) root).Perm
      [mkOperationPage p₁ HttpMethod.get op₁
          (opBasePath (normalizedApiRoot root) p₁ HttpMethod.get op₁),
        mkOperationPage p₂ HttpMethod.get op₂
          (opBasePath (normalizedApiRoot root) p₂ HttpMethod.get op₂)] := by
    rw [buildOperationPages, hpre]
    exact List.perm_insertionSort _ _
  refine ⟨?_, ?_, ?_, hne⟩
  · rw [hperm.length_eq]
    rfl
  · exact hperm.mem_iff.mpr (by simp)
  · exact hperm.mem_iff.mpr (by simp)

theorem distinctTagSlugs_no_suffix_witness :
    (buildOperationPages
        (twoOpSchema "/items" "/things"
          { operationId := some "getItem", tags := ["Users"] }
          { operationId := some "getItem", tags := ["Items"] }) "/api-reference").length = 2 :=
  (distinctTagSlugs_no_suffix "/items" "/things" "getItem" "/api-reference"
    { operationId := some "getItem", tags := ["Users"] }
    { operationId := some "getItem", tags := ["Items"] }
    rfl rfl (by decide)).1

/-- An operation with a 70-character operationId. -/
def longIdOp : Operation :=
  { operationId := some "aaaaaaaaaaaaaaaaaaaaaaaaaaaaaaaaaaaaaaaaaaaaaaaaaaaaaaaaaaaaaaaaaaaaaa" }

/-- A source with two operations sharing a 70-character operationId. -/
def longIdSchema : OpenApiPaths :=
  [("/x", { getOp := some longIdOp }), ("/y", { getOp := some longIdOp })]

/-- **C10 counterexample.** The claim bounds *every* operation segment of a
synthesized page path at 64 characters; but when a collision suffix is
appended to a maximal-length slug the resulting operation segment is 66
characters long. -/
theorem slug_segment_bound_counterexample :
    ∃ page ∈ buildOperationPages longIdSchema "/api-reference",
      64 < (lastSegment page.pagePath).length := by
  decide

/-- **C10 amended.** Every `slugify` result is at most 64 characters and
consists only of lowercase ASCII letters, digits and hyphens; consequently
in every synthesized operation page path the tag segment and the base
operation slug are bounded at 64 characters — the operation segment itself
exceeds that bound only by a numeric collision suffix `-k`, `k ≥ 2`,
appended to the (≤ 64 character) base slug. -/
theorem slug_bounds (value : String) (schema : OpenApiPaths) (apiRoot : String) :
    ((slugify value).length ≤ 64 ∧
      (∀ c ∈ (slugify value).data, isSlugChar c = true ∨ c = '-')) ∧
    ∀ page ∈ buildOperationPages schema apiRoot,
      ∃ tagSeg baseSeg, tagSeg.length ≤ 64 ∧ baseSeg.length ≤ 64 ∧
        (page.pagePath = normalizedApiRoot apiRoot ++ "/" ++ tagSeg ++ "/" ++ baseSeg ∨
          ∃ k, 2 ≤ k ∧ page.pagePath =
            collisionCandidate
              (normalizedApiRoot apiRoot ++ "/" ++ tagSeg ++ "/" ++ baseSeg) k) := by
  refine ⟨⟨slugify_length value, slugify_chars value⟩, ?_⟩
  intro page hpage
  have hpre : page ∈ (buildPagesPaths (normalizedApiRoot apiRoot) schema []).1 :=
    ((List.perm_insertionSort operationLe _).mem_iff).mp hpage
  rcases buildPagesPaths_shape (normalizedApiRoot apiRoot) schema [] page hpre with
    ⟨rawPath, item, m, op, pp, _, _, heq, hshape⟩
  refine ⟨opTagSlug op, opIdBase op m rawPath, opTagSlug_length op,
    opIdBase_length op m rawPath, ?_⟩
  have hpp : page.pagePath = pp := by
    rw [heq]
    rfl
  rw [hpp]
  simpa [opBasePath] using hshape

theorem slug_bounds_witness :
    (slugify "Hello, World!").length ≤ 64 ∧
    ∃ tagSeg baseSeg, tagSeg.length ≤ 64 ∧ baseSeg.length ≤ 64 ∧
      (("api-reference/pets/listpets" : String) =
          normalizedApiRoot "/api-reference" ++ "/" ++ tagSeg ++ "/" ++ baseSeg ∨
        ∃ k, 2 ≤ k ∧ ("api-reference/pets/listpets" : String) =
          collisionCandidate
            (normalizedApiRoot "/api-reference" ++ "/" ++ tagSeg ++ "/" ++ baseSeg) k) := by
  refine ⟨(slug_bounds "Hello, World!" petsSchema "/api-reference").1.1, ?_⟩
  have h := (slug_bounds "Hello, World!" petsSchema "/api-reference").2
    { id := "listPets", method := "GET", path := "/pets", summary := "GET /pets",
      description := none, tag := "Pets", pagePath := "api-reference/pets/listpets" }
    (by decide)
  simpa using h

/-! ### Navigation model (`types.ts`) -/

/-- A navigation entry (`DocsNavigationItem` from `types.ts`): a literal
page-path string or a nested group.  A group's optional `pages` array is
embedded as a plain list (`undefined` behaves as `[]` in every function
modelled here). -/
inductive NavItem where
  | page (s : String)
  | group (name : String) (openapi : Option String) (pages : List NavItem)

/-- A top-level navigation group (`DocsNavigationGroup` from `types.ts`). -/
structure DocsNavigationGroup where
  group : String
  openapi : Option String := none
  pages : List NavItem := []

/-- The fields of the normalized docs config (`DocsJson` from `types.ts`)
consumed by the components verified here; branding fields that no claim
observes are omitted. -/
structure DocsJson where
  name : String := ""
  theme : String := "mint"
  navigation : List DocsNavigationGroup := []
  warnings : List String := []
  unknownFields : List String := []

/-- Embeds `DocsConfigSourceType` from `types.ts`. -/
inductive DocsConfigSourceType where
  | docsJson
  | mintJson
  | generated
deriving DecidableEq, Repr

/-- Embeds `DocsConfigLoadResult` from `types.ts`. -/
structure DocsConfigLoadResult where
  config : Option DocsJson
  source : DocsConfigSourceType
  sourcePath : Option String := none
  warnings : List String := []
  unknownFields : List String := []

/-! ### Docs-config loader (`docs-json.ts`, `loadDocsConfig`) -/

/-- The observable state of one candidate config file: absent (`ENOENT`),
present but failing to load (unparsable JSON, non-object, or schema
validation failure — `loadJsonConfigAtPath` raises `SparkifyError` with
`InvalidDocsJson` in each of those cases), or present and normalizing to a
config. -/
inductive ConfigFileState where
  | absent
  | invalid (msg : String)
  | valid (cfg : DocsJson)

/-- Embeds `loadJsonConfigAtPath` from `docs-json.ts` over a file-state
oracle: `ENOENT` yields `null`, any other failure raises `InvalidDocsJson`,
success yields a populated load result. -/
def loadJsonConfigAtPath (st : ConfigFileState) (source : DocsConfigSourceType)
    (configPath : String) : Except SparkifyError (Option DocsConfigLoadResult) :=
  match st with
  | ConfigFileState.absent => Except.ok none
  | ConfigFileState.invalid msg =>
    Except.error ⟨"Unable to parse config at " ++ configPath ++ ": " ++ msg,
      ExitCode.invalidDocsJson⟩
  | ConfigFileState.valid cfg =>
    Except.ok (some
      { config := some cfg
        source := source
        sourcePath := some configPath
        warnings := cfg.warnings
        unknownFields := cfg.unknownFields })

/-- The `for (const candidate of candidates)` loop of `loadDocsConfig`:
return the first candidate that yields a config, propagate the first error,
and fall through to the "no config found" result. -/
def runCandidates :
    List (Except SparkifyError (Option DocsConfigLoadResult)) →
      Except SparkifyError DocsConfigLoadResult
  | [] =>
    Except.ok
      { config := none
        source := DocsConfigSourceType.generated
        sourcePath := none
        warnings := []
        unknownFields := [] }
  | c :: rest =>
    match c with
    | Except.error e => Except.error e
    | Except.ok (some r) => Except.ok r
    | Except.ok none => runCandidates rest

/-- Embeds `loadDocsConfig` from `docs-json.ts` over file-state oracles for
the two candidate files: candidate order determined by `preferDocsJson`,
`mint.json` skipped entirely when `allowMintJson` is false. -/
def loadDocsConfig (docsState mintState : ConfigFileState)
    (preferDocsJson allowMintJson : Bool) (docsDir : String) :
    Except SparkifyError DocsConfigLoadResult :=
  let docsJsonPath := docsDir ++ "/docs.json"
  let mintJsonPath := docsDir ++ "/mint.json"
  let tryDocsJson := loadJsonConfigAtPath docsState DocsConfigSourceType.docsJson docsJsonPath
  let tryMintJson :=
    if !allowMintJson then Except.ok none
    else loadJsonConfigAtPath mintState DocsConfigSourceType.mintJson mintJsonPath
  runCandidates (if preferDocsJson then [tryDocsJson, tryMintJson] else [tryMintJson, tryDocsJson])

/-- **C4.** The docs-config loader tries the modern-shape file then the
legacy-shape file when `preferDocsJson` (the `preferModern` flag) is true
and the reverse order when it is false, returning the first candidate that
yields a config; the legacy-shape file is never consulted when
`allowMintJson` (the `allowLegacy` flag) is false; and when no candidate
file exists the loader returns a "no config" result (config `none`, source
`generated`) rather than an error. -/
theorem loadDocsConfig_spec :
    (∀ docsState mintState₁ mintState₂ preferDocsJson docsDir,
      loadDocsConfig docsState mintState₁ preferDocsJson false docsDir =
        loadDocsConfig docsState mintState₂ preferDocsJson false docsDir) ∧
    (∀ preferDocsJson allowMintJson docsDir,
      loadDocsConfig ConfigFileState.absent ConfigFileState.absent
          preferDocsJson allowMintJson docsDir =
        Except.ok
          { config := none
            source := DocsConfigSourceType.generated
            sourcePath := none
            warnings := []
            unknownFields := [] }) ∧
    (∀ cfg mintState allowMintJson docsDir,
      loadDocsConfig (ConfigFileState.valid cfg) mintState true allowMintJson docsDir =
        Except.ok
          { config := some cfg
            source := DocsConfigSourceType.docsJson
            sourcePath := some (docsDir ++ "/docs.json")
            warnings := cfg.warnings
            unknownFields := cfg.unknownFields }) ∧
    (∀ cfg docsState docsDir,
      loadDocsConfig docsState (ConfigFileState.valid cfg) false true docsDir =
        Except.ok
          { config := some cfg
            source := DocsConfigSourceType.mintJson
            sourcePath := some (docsDir ++ "/mint.json")
            warnings := cfg.warnings
            unknownFields := cfg.unknownFields }) ∧
    (∀ cfg docsDir,
      loadDocsConfig ConfigFileState.absent (ConfigFileState.valid cfg) true true docsDir =
        Except.ok
          { config := some cfg
            source := DocsConfigSourceType.mintJson
            sourcePath := some (docsDir ++ "/mint.json")
            warnings := cfg.warnings
            unknownFields := cfg.unknownFields }) ∧
    (∀ cfg mintState docsDir,
      loadDocsConfig (ConfigFileState.valid cfg) mintState false false docsDir =
        Except.ok
          { config := some cfg
            source := DocsConfigSourceType.docsJson
            sourcePath := some (docsDir ++ "/docs.json")
            warnings := cfg.warnings
            unknownFields := cfg.unknownFields }) ∧
    (∀ cfg docsDir,
      loadDocsConfig (ConfigFileState.valid cfg) ConfigFileState.absent false true docsDir =
        Except.ok
          { config := some cfg
            source := DocsConfigSourceType.docsJson
            sourcePath := some (docsDir ++ "/docs.json")
            warnings := cfg.warnings
            unknownFields := cfg.unknownFields }) := by
  refine ⟨?_, ?_, ?_, ?_, ?_, ?_, ?_⟩
  · intro docsState mintState₁ mintState₂ preferDocsJson docsDir
    cases docsState <;> cases preferDocsJson <;> rfl
  · intro preferDocsJson allowMintJson docsDir
    cases preferDocsJson <;> cases allowMintJson <;> rfl
  · intro cfg mintState allowMintJson docsDir
    cases allowMintJson <;> rfl
  · intro cfg docsState docsDir
    rfl
  · intro cfg docsDir
    rfl
  · intro cfg mintState docsDir
    rfl
  · intro cfg docsDir
    rfl

/-! ### Default navigation synthesis (`docs-json.ts`, `buildNavigation`) -/

/-- Embeds `replace(/[-_]/g, " ")` character-wise. -/
def dashToSpace (c : Char) : Char :=
  if c = '-' ∨ c = '_' then ' ' else c

/-- Embeds `split(" ")` on a character list (pieces between literal space
characters, empties included). -/
def splitSpaceGo : List Char → List Char → List (List Char)
  | [], acc => [acc.reverse]
  | c :: rest, acc =>
    if c = ' ' then acc.reverse :: splitSpaceGo rest [] else splitSpaceGo rest (c :: acc)

/-- Embeds `chunk.charAt(0).toUpperCase() + chunk.slice(1)`. -/
def capitalizeChunk : List Char → List Char
  | [] => []
  | c :: cs => Char.toUpper c :: cs

/-- Embeds `prettyTitle` from `docs-json.ts`: replace `-`/`_` with spaces,
split on spaces, drop empty chunks, capitalize each chunk, re-join. -/
def prettyTitle (value : String) : String :=
  ⟨List.intercalate [' ']
    (((splitSpaceGo (value.data.map dashToSpace) []).filter (fun w => w ≠ [])).map
      capitalizeChunk)⟩

/-- Whether a page path is "index"-like for `sortPages`: it ends in
`/index` or is exactly `index`. -/
def indexLike (p : String) : Bool :=
  strEnds p "/index" || p = "index"

/-- The comparator of `sortPages` from `docs-json.ts`. -/
def pageCmp (l r : String) : Int :=
  if strEnds l "/index" = true ∧ strEnds r "/index" = false then -1
  else if strEnds l "/index" = false ∧ strEnds r "/index" = true then 1
  else if l = "index" then -1
  else if r = "index" then 1
  else locCompare l r

/-- The sort relation induced by the `sortPages` comparator. -/
def pageLe (l r : String) : Prop := pageCmp l r ≤ 0

instance : DecidableRel pageLe := fun l r =>
  inferInstanceAs (Decidable (pageCmp l r ≤ 0))

/-- Embeds `sortPages` from `docs-json.ts`. -/
def sortPages (pagePaths : List String) : List String :=
  List.insertionSort pageLe pagePaths

/-- Embeds `page.split("/")[0]`: the leading path segment. -/
def topPart (p : String) : String :=
  ⟨p.data.takeWhile (fun c => c ≠ '/')⟩

/-- Embeds `page.includes("/")`. -/
def hasDirSeg (p : String) : Bool := strHasChar p '/'

/-- One `pagesByTopLevel` update: push the page onto its key's bucket
(keeping the key's position) or append a fresh bucket, exactly as
`Map.get`/`push`/`Map.set` behave. -/
def upsertBucket : List (String × List String) → String → String → List (String × List String)
  | [], k, v => [(k, [v])]
  | (k', vs) :: rest, k, v =>
    if k' = k then (k', vs ++ [v]) :: rest else (k', vs) :: upsertBucket rest k v

/-- The `pagesByTopLevel` map of `buildNavigation`: buckets of pages with a
directory segment, keyed by leading segment, in insertion order. -/
def bucketsOf (pagePaths : List String) : List (String × List String) :=
  pagePaths.foldl
    (fun m p => if hasDirSeg p then upsertBucket m (topPart p) p else m) []

/-- The comparator `([a], [b]) => a.localeCompare(b)` used to order the
top-level directory buckets. -/
def pairLe (a b : String × List String) : Prop := locCompare a.1 b.1 ≤ 0

instance : DecidableRel pairLe := fun a b =>
  inferInstanceAs (Decidable (locCompare a.1 b.1 ≤ 0))

/-- One inferred directory group: title from the explicit override map else
the title-cased directory name, pages sorted by `sortPages`. -/
def mkDirGroup (dirTitleMap : String → Option String)
    (entry : String × List String) : DocsNavigationGroup :=
  { group := (dirTitleMap entry.1).getD (prettyTitle entry.1)
    openapi := none
    pages := (sortPages entry.2).map NavItem.page }

/-- Embeds `buildNavigation` from `docs-json.ts`: a leading
"Getting Started" group of root-level pages when any exist, followed by one
group per top-level directory in lexicographic directory order. -/
def buildNavigation (pagePaths : List String)
    (dirTitleMap : String → Option String) : List DocsNavigationGroup :=
  let rootPages := sortPages (pagePaths.filter (fun p => !hasDirSeg p))
  (if rootPages = [] then []
   else [{ group := "Getting Started", openapi := none, pages := rootPages.map NavItem.page }]) ++
    (List.insertionSort pairLe (bucketsOf pagePaths)).map (mkDirGroup dirTitleMap)

/-! #### Ordering lemmas for `sortPages` and the bucket sort -/

theorem locLt_false_trans {a b c : String}
    (h₁ : locLt b a = false) (h₂ : locLt c b = false) : locLt c a = false := by
  cases hca : locLt c a with
  | false => rfl
  | true =>
    exfalso
    by_cases hab : locLt a b = true
    · have := locLt_trans hca hab
      rw [h₂] at this
      exact Bool.false_ne_true this
    · have hab' : locLt a b = false := by
        cases hv : locLt a b with
        | false => rfl
        | true => exact absurd hv hab
      have heq : a = b := locLt_eq_of_not hab' h₁
      rw [heq] at hca
      rw [h₂] at hca
      exact Bool.false_ne_true hca

instance : IsTrans (String × List String) pairLe := by
  constructor
  intro a b c h₁ h₂
  unfold pairLe at *
  rw [locCompare_nonpos_iff] at *
  exact locLt_false_trans h₁ h₂

instance : IsTotal (String × List String) pairLe := by
  constructor
  intro a b
  unfold pairLe
  rw [locCompare_nonpos_iff, locCompare_nonpos_iff]
  cases h : locLt b.1 a.1 with
  | false => exact Or.inl rfl
  | true => exact Or.inr (locLt_asymm h)

theorem index_not_ender : strEnds "index" "/index" = false := by decide

theorem pageLe_iff (l r : String) :
    pageLe l r ↔
      ((strEnds l "/index" = true ∧ strEnds r "/index" = false) ∨
        (strEnds l "/index" = strEnds r "/index" ∧
          (l = "index" ∨ (r ≠ "index" ∧ locLt r l = false)))) := by
  unfold pageLe pageCmp
  by_cases hEl : strEnds l "/index" = true
  · by_cases hEr : strEnds r "/index" = true
    · have hl : l ≠ "index" := fun h => by rw [h] at hEl; exact absurd hEl (by decide)
      have hr : r ≠ "index" := fun h => by rw [h] at hEr; exact absurd hEr (by decide)
      rw [if_neg (by simp [hEr]), if_neg (by simp [hEl]), if_neg hl, if_neg hr,
        locCompare_nonpos_iff]
      constructor
      · intro h
        exact Or.inr ⟨by rw [hEl, hEr], Or.inr ⟨hr, h⟩⟩
      · rintro (⟨-, h⟩ | ⟨-, h | ⟨-, h⟩⟩)
        · exact absurd hEr (by simp [h])
        · exact absurd h hl
        · exact h
    · have hEr' : strEnds r "/index" = false := by simpa using hEr
      rw [if_pos ⟨hEl, hEr'⟩]
      simp only [Int.reduceNeg, Int.reduceLE, true_iff]
      exact Or.inl ⟨hEl, hEr'⟩
  · have hEl' : strEnds l "/index" = false := by simpa using hEl
    by_cases hEr : strEnds r "/index" = true
    · rw [if_neg (by simp [hEl']), if_pos ⟨hEl', hEr⟩]
      constructor
      · intro h
        exact absurd h (by decide)
      · rintro (⟨h, -⟩ | ⟨h, -⟩)
        · exact absurd h (by simp [hEl'])
        · rw [hEl'] at h
          exact absurd hEr (by simp [← h])
    · have hEr' : strEnds r "/index" = false := by simpa using hEr
      rw [if_neg (by simp [hEl']), if_neg (by simp [hEr'])]
      by_cases hl : l = "index"
      · rw [if_pos hl]
        simp only [Int.reduceNeg, Int.reduceLE, true_iff]
        exact Or.inr ⟨by rw [hEl', hEr'], Or.inl hl⟩
      · rw [if_neg hl]
        by_cases hr : r = "index"
        · rw [if_pos hr]
          constructor
          · intro h
            exact absurd h (by decide)
          · rintro (⟨h, -⟩ | ⟨-, h | ⟨h, -⟩⟩)
            · exact absurd h (by simp [hEl'])
            · exact absurd h hl
            · exact absurd hr h
        · rw [if_neg hr, locCompare_nonpos_iff]
          constructor
          · intro h
            exact Or.inr ⟨by rw [hEl', hEr'], Or.inr ⟨hr, h⟩⟩
          · rintro (⟨h, -⟩ | ⟨-, h | ⟨-, h⟩⟩)
            · exact absurd h (by simp [hEl'])
            · exact absurd h hl
            · exact h

instance : IsTrans String pageLe := by
  constructor
  intro a b c h₁ h₂
  rw [pageLe_iff] at *
  rcases h₁ with ⟨hEa, hEb⟩ | ⟨hEab, h₁⟩
  · rcases h₂ with ⟨hEb', -⟩ | ⟨hEbc, h₂⟩
    · rw [hEb] at hEb'
      exact absurd hEb' (by decide)
    · exact Or.inl ⟨hEa, by rw [← hEbc, hEb]⟩
  · rcases h₂ with ⟨hEb, hEc⟩ | ⟨hEbc, h₂⟩
    · exact Or.inl ⟨by rw [hEab, hEb], hEc⟩
    · refine Or.inr ⟨by rw [hEab, hEbc], ?_⟩
      rcases h₁ with h₁ | ⟨hbni, h₁⟩
      · exact Or.inl h₁
      · rcases h₂ with h₂ | ⟨hcni, h₂⟩
        · exact absurd h₂ hbni
        · exact Or.inr ⟨hcni, locLt_false_trans h₁ h₂⟩

instance : IsTotal String pageLe := by
  constructor
  intro a b
  rw [pageLe_iff, pageLe_iff]
  by_cases hEa : strEnds a "/index" = true
  · by_cases hEb : strEnds b "/index" = true
    · have ha : a ≠ "index" := fun h => by rw [h] at hEa; exact absurd hEa (by decide)
      have hb : b ≠ "index" := fun h => by rw [h] at hEb; exact absurd hEb (by decide)
      by_cases hba : locLt b a = true
      · exact Or.inr (Or.inr ⟨by rw [hEa, hEb], Or.inr ⟨ha, locLt_asymm hba⟩⟩)
      · exact Or.inl (Or.inr ⟨by rw [hEa, hEb], Or.inr ⟨hb, by simpa using hba⟩⟩)
    · exact Or.inl (Or.inl ⟨hEa, by simpa using hEb⟩)
  · by_cases hEb : strEnds b "/index" = true
    · exact Or.inr (Or.inl ⟨hEb, by simpa using hEa⟩)
    · have hEa' : strEnds a "/index" = false := by simpa using hEa
      have hEb' : strEnds b "/index" = false := by simpa using hEb
      by_cases ha : a = "index"
      · exact Or.inl (Or.inr ⟨by rw [hEa', hEb'], Or.inl ha⟩)
      · by_cases hb : b = "index"
        · exact Or.inr (Or.inr ⟨by rw [hEa', hEb'], Or.inl hb⟩)
        · by_cases hba : locLt b a = true
          · exact Or.inr (Or.inr ⟨by rw [hEa', hEb'], Or.inr ⟨ha, locLt_asymm hba⟩⟩)
          · exact Or.inl (Or.inr ⟨by rw [hEa', hEb'], Or.inr ⟨hb, by simpa using hba⟩⟩)

/-- In a list sorted by the `sortPages` comparator, if any element is
"index"-like then the head is "index"-like. -/
theorem sorted_indexLike_head {l : List String} (hs : List.Pairwise pageLe l)
    {q : String} (hq : q ∈ l) (hidx : indexLike q = true) :
    ∃ h t, l = h :: t ∧ indexLike h = true := by
  cases l with
  | nil => exact absurd hq (List.not_mem_nil q)
  | cons h t =>
    by_cases hh : indexLike h = true
    · exact ⟨h, t, rfl, hh⟩
    · exfalso
      have hh' : strEnds h "/index" = false ∧ h ≠ "index" := by
        simpa [indexLike] using hh
      rcases List.mem_cons.mp hq with rfl | hq'
      · exact hh hidx
      · have hle : pageLe h q := (List.pairwise_cons.mp hs).1 q hq'
        rw [pageLe_iff] at hle
        simp only [indexLike, Bool.or_eq_true, decide_eq_true_eq] at hidx
        rcases hle with ⟨hEh, -⟩ | ⟨hEhq, hle⟩
        · exact absurd hEh (by simp [hh'.1])
        · rcases hidx with hEq | hqi
          · rw [hh'.1] at hEhq
            exact absurd hEq (by simp [← hEhq])
          · rcases hle with hhi | ⟨hqni, -⟩
            · exact hh'.2 hhi
            · exact hqni hqi

/-! #### Bucket characterization -/

/-- The pages of `pagePaths` that belong to top-level directory `k`. -/
def bucketFilter (ps : List String) (k : String) : List String :=
  ps.filter (fun p => hasDirSeg p && (topPart p == k))

theorem upsertBucket_keys (m : List (String × List String)) (k v : String) :
    (upsertBucket m k v).map Prod.fst =
      if k ∈ m.map Prod.fst then m.map Prod.fst else m.map Prod.fst ++ [k] := by
  induction m with
  | nil => simp [upsertBucket]
  | cons hd rest ih =>
    obtain ⟨k', vs⟩ := hd
    by_cases hk : k' = k
    · simp [upsertBucket, hk]
    · simp only [upsertBucket, if_neg hk, List.map_cons]
      rw [ih]
      by_cases hmem : k ∈ rest.map Prod.fst
      · simp [hmem, Ne.symm hk]
      · simp [hmem, Ne.symm hk]

theorem upsertBucket_mem_cases :
    ∀ (m : List (String × List String)) (k v k' : String) (b : List String),
      (m.map Prod.fst).Nodup →
      (k', b) ∈ upsertBucket m k v →
        (k' ≠ k ∧ (k', b) ∈ m) ∨
        (k' = k ∧
          ((∃ b₀, (k, b₀) ∈ m ∧ b = b₀ ++ [v]) ∨ (k ∉ m.map Prod.fst ∧ b = [v]))) := by
  intro m
  induction m with
  | nil =>
    intro k v k' b _ h
    simp only [upsertBucket, List.mem_singleton, Prod.mk.injEq] at h
    exact Or.inr ⟨h.1, Or.inr ⟨by simp, h.2⟩⟩
  | cons hd rest ih =>
    intro k v k' b hnd h
    obtain ⟨k'', vs⟩ := hd
    simp only [List.map_cons, List.nodup_cons] at hnd
    by_cases hk : k'' = k
    · rw [upsertBucket, if_pos hk] at h
      rcases List.mem_cons.mp h with heq | htail
      · have h1 : k' = k'' ∧ b = vs ++ [v] := by simpa [Prod.ext_iff] using heq
        refine Or.inr ⟨h1.1.trans hk, Or.inl ⟨vs, ?_, h1.2⟩⟩
        rw [← hk]
        exact List.mem_cons_self _ _
      · by_cases hkk : k' = k
        · exfalso
          apply hnd.1
          rw [hk, ← hkk]
          exact List.mem_map.mpr ⟨(k', b), htail, rfl⟩
        · exact Or.inl ⟨hkk, List.mem_cons_of_mem _ htail⟩
    · rw [upsertBucket, if_neg hk] at h
      rcases List.mem_cons.mp h with heq | htail
      · have h1 : k' = k'' ∧ b = vs := by simpa [Prod.ext_iff] using heq
        refine Or.inl ⟨?_, ?_⟩
        · rw [h1.1]
          exact hk
        · rw [h1.1, h1.2]
          exact List.mem_cons_self _ _
      · rcases ih k v k' b hnd.2 htail with ⟨hne, hmem⟩ | ⟨hkeq, hcase⟩
        · exact Or.inl ⟨hne, List.mem_cons_of_mem _ hmem⟩
        · refine Or.inr ⟨hkeq, ?_⟩
          rcases hcase with ⟨b₀, hb₀, hb⟩ | ⟨hnomem, hb⟩
          · exact Or.inl ⟨b₀, List.mem_cons_of_mem _ hb₀, hb⟩
          · refine Or.inr ⟨?_, hb⟩
            simp only [List.map_cons, List.mem_cons]
            rintro (hc | hc)
            · exact hk hc.symm
            · exact hnomem hc

theorem bucketsOf_append (ps : List String) (p : String) :
    bucketsOf (ps ++ [p]) =
      if hasDirSeg p then upsertBucket (bucketsOf ps) (topPart p) p
      else bucketsOf ps := by
  unfold bucketsOf
  rw [List.foldl_append]
  rfl

theorem bucketFilter_append (ps : List String) (p k : String) :
    bucketFilter (ps ++ [p]) k =
      bucketFilter ps k ++ (if hasDirSeg p && (topPart p == k) then [p] else []) := by
  unfold bucketFilter
  rw [List.filter_append]
  simp [List.filter_singleton]

/-- The `pagesByTopLevel` map of `buildNavigation`, characterized: keys are
pairwise distinct, each bucket is exactly the pages of its directory in
input order, and a key is present iff some page lives under it. -/
theorem bucketsOf_spec (ps : List String) :
    ((bucketsOf ps).map Prod.fst).Nodup ∧
    (∀ k b, (k, b) ∈ bucketsOf ps → b = bucketFilter ps k ∧ b ≠ []) ∧
    (∀ k, k ∈ (bucketsOf ps).map Prod.fst ↔
      ∃ p ∈ ps, hasDirSeg p = true ∧ topPart p = k) := by
  induction ps using List.reverseRecOn with
  | nil =>
    refine ⟨by simp [bucketsOf], by simp [bucketsOf], by simp [bucketsOf]⟩
  | append_singleton ps p ih =>
    obtain ⟨ihnd, ihval, ihkeys⟩ := ih
    rw [bucketsOf_append]
    by_cases hdir : hasDirSeg p = true
    · rw [if_pos hdir]
      refine ⟨?_, ?_, ?_⟩
      · rw [upsertBucket_keys]
        by_cases hmem : topPart p ∈ (bucketsOf ps).map Prod.fst
        · rw [if_pos hmem]
          exact ihnd
        · rw [if_neg hmem]
          simp only [List.nodup_append, List.nodup_cons, List.not_mem_nil, not_false_iff,
            List.nodup_nil, and_true, true_and, List.disjoint_singleton]
          exact ⟨ihnd, hmem⟩
      · intro k b hkb
        rcases upsertBucket_mem_cases (bucketsOf ps) (topPart p) p k b ihnd hkb with
          ⟨hne, hold⟩ | ⟨hkeq, hcase⟩
        · obtain ⟨hval, hnonempty⟩ := ihval k b hold
          rw [bucketFilter_append]
          have h1 : (topPart p == k) = false := beq_eq_false_iff_ne.mpr (Ne.symm hne)
          rw [h1, Bool.and_false]
          simpa using ⟨hval, hnonempty⟩
        · subst hkeq
          rcases hcase with ⟨b₀, hb₀, hb⟩ | ⟨hnomem, hb⟩
          · obtain ⟨hval, -⟩ := ihval _ _ hb₀
            rw [bucketFilter_append]
            have hcond : (hasDirSeg p && (topPart p == topPart p)) = true := by
              simp [hdir]
            rw [hcond]
            subst hb
            subst hval
            exact ⟨rfl, by simp⟩
          · have hfilter : bucketFilter ps (topPart p) = [] := by
              unfold bucketFilter
              rw [List.filter_eq_nil_iff]
              intro q hq
              intro hcond
              simp only [Bool.and_eq_true, beq_iff_eq] at hcond
              exact hnomem ((ihkeys (topPart p)).mpr ⟨q, hq, hcond.1, hcond.2⟩)
            rw [bucketFilter_append]
            have hcond : (hasDirSeg p && (topPart p == topPart p)) = true := by
              simp [hdir]
            rw [hcond, hfilter]
            subst hb
            exact ⟨rfl, by simp⟩
      · intro k
        rw [upsertBucket_keys]
        by_cases hmem : topPart p ∈ (bucketsOf ps).map Prod.fst
        · rw [if_pos hmem]
          rw [ihkeys]
          constructor
          · rintro ⟨q, hq, hc⟩
            exact ⟨q, List.mem_append_left _ hq, hc⟩
          · rintro ⟨q, hq, hc⟩
            rcases List.mem_append.mp hq with hq' | hq'
            · exact ⟨q, hq', hc⟩
            · rw [List.mem_singleton] at hq'
              subst hq'
              rw [← hc.2]
              rcases (ihkeys (topPart q)).mp hmem with ⟨q', hq'', hc'⟩
              exact ⟨q', hq'', hc'⟩
        · rw [if_neg hmem]
          rw [List.mem_append, ihkeys, List.mem_singleton]
          constructor
          · rintro (⟨q, hq, hc⟩ | rfl)
            · exact ⟨q, List.mem_append_left _ hq, hc⟩
            · exact ⟨p, List.mem_append_right _ (List.mem_singleton_self p), hdir, rfl⟩
          · rintro ⟨q, hq, hc⟩
            rcases List.mem_append.mp hq with hq' | hq'
            · exact Or.inl ⟨q, hq', hc⟩
            · rw [List.mem_singleton] at hq'
              subst hq'
              exact Or.inr hc.2.symm
    · rw [if_neg hdir]
      have hdir' : hasDirSeg p = false := by simpa using hdir
      refine ⟨ihnd, ?_, ?_⟩
      · intro k b hkb
        obtain ⟨hval, hnonempty⟩ := ihval k b hkb
        rw [bucketFilter_append]
        have hcond : (hasDirSeg p && (topPart p == k)) = false := by
          simp [hdir']
        rw [hcond]
        simpa using ⟨hval, hnonempty⟩
      · intro k
        rw [ihkeys]
        constructor
        · rintro ⟨q, hq, hc⟩
          exact ⟨q, List.mem_append_left _ hq, hc⟩
        · rintro ⟨q, hq, hc⟩
          rcases List.mem_append.mp hq with hq' | hq'
          · exact ⟨q, hq', hc⟩
          · rw [List.mem_singleton] at hq'
            subst hq'
            rw [hdir'] at hc
            exact absurd hc.1 (by simp)

theorem forall₂_map_map {α β γ : Type _} (R : β → γ → Prop) (f : α → β) (g : α → γ) :
    ∀ (l : List α), (∀ x ∈ l, R (f x) (g x)) → List.Forall₂ R (l.map f) (l.map g) := by
  intro l
  induction l with
  | nil =>
    intro
    exact List.Forall₂.nil
  | cons x xs ih =>
    intro h
    simp only [List.map_cons]
    exact List.Forall₂.cons (h x (List.mem_cons_self x xs))
      (ih fun y hy => h y (List.mem_cons_of_mem _ hy))

/-- **C6.** `buildNavigation` places all pages with no directory segment
into a "Getting Started" group ordered first (present only when such pages
exist — when every page has a directory segment, every synthesized group
holds only directory pages), buckets every remaining page into one group
per top-level directory with the groups ordered strictly by directory name
(code-point lexicographic), sorts an "index"-like page first within each
bucket, and titles each inferred group with the explicit override for its
directory when one exists, else the title-cased directory name. -/
theorem buildNavigation_spec (pagePaths : List String)
    (dirTitleMap : String → Option String) :
    ((∃ p ∈ pagePaths, hasDirSeg p = false) →
      ∃ g rest, buildNavigation pagePaths dirTitleMap = g :: rest ∧
        g.group = "Getting Started" ∧ g.openapi = none ∧
        ∃ roots : List String, g.pages = roots.map NavItem.page ∧
          roots.Perm (pagePaths.filter (fun p => !hasDirSeg p)) ∧
          ((∃ q ∈ roots, indexLike q = true) →
            ∃ q₀ tl, roots = q₀ :: tl ∧ indexLike q₀ = true)) ∧
    ((∀ p ∈ pagePaths, hasDirSeg p = true) →
      ∀ g ∈ buildNavigation pagePaths dirTitleMap,
        ∃ bucket : List String, g.pages = bucket.map NavItem.page ∧
          ∀ q ∈ bucket, hasDirSeg q = true) ∧
    (∃ ds : List String,
      List.Pairwise (fun a b => locLt a b = true) ds ∧
      (∀ d, d ∈ ds ↔ ∃ p ∈ pagePaths, hasDirSeg p = true ∧ topPart p = d) ∧
      List.Forall₂
        (fun d g =>
          g.group = (dirTitleMap d).getD (prettyTitle d) ∧ g.openapi = none ∧
          ∃ bucket : List String, g.pages = bucket.map NavItem.page ∧
            bucket.Perm (bucketFilter pagePaths d) ∧
            ((∃ q ∈ bucket, indexLike q = true) →
              ∃ q₀ tl, bucket = q₀ :: tl ∧ indexLike q₀ = true))
        ds
        ((buildNavigation pagePaths dirTitleMap).drop
          (if pagePaths.filter (fun p => !hasDirSeg p) = [] then 0 else 1))) := by
  obtain ⟨hnd, hval, hkeys⟩ := bucketsOf_spec pagePaths
  have hperm : (List.insertionSort pairLe (bucketsOf pagePaths)).Perm (bucketsOf pagePaths) :=
    List.perm_insertionSort pairLe _
  have hrootiff : (sortPages (pagePaths.filter (fun p => !hasDirSeg p)) = []) ↔
      (pagePaths.filter (fun p => !hasDirSeg p) = []) := by
    constructor
    · intro h
      have hp2 := List.perm_insertionSort pageLe (pagePaths.filter (fun p => !hasDirSeg p))
      rw [sortPages] at h
      rw [h] at hp2
      exact hp2.symm.eq_nil
    · intro h
      rw [sortPages, h]
      rfl
  refine ⟨?_, ?_, ?_⟩
  · intro hroot
    obtain ⟨p, hp, hpdir⟩ := hroot
    have hfne : pagePaths.filter (fun p => !hasDirSeg p) ≠ [] := by
      intro hnil
      have : p ∈ pagePaths.filter (fun p => !hasDirSeg p) :=
        List.mem_filter.mpr ⟨hp, by simp [hpdir]⟩
      rw [hnil] at this
      exact List.not_mem_nil p this
    have hsne : sortPages (pagePaths.filter (fun p => !hasDirSeg p)) ≠ [] :=
      fun h => hfne (hrootiff.mp h)
    refine ⟨⟨"Getting Started", none,
        (sortPages (pagePaths.filter (fun p => !hasDirSeg p))).map NavItem.page⟩,
      (List.insertionSort pairLe (bucketsOf pagePaths)).map (mkDirGroup dirTitleMap),
      ?_, rfl, rfl, ?_⟩
    · simp only [buildNavigation]
      rw [if_neg hsne]
      rfl
    · refine ⟨sortPages (pagePaths.filter (fun p => !hasDirSeg p)), rfl,
        List.perm_insertionSort pageLe _, ?_⟩
      intro hidx
      obtain ⟨q, hq, hqidx⟩ := hidx
      exact sorted_indexLike_head (List.sorted_insertionSort pageLe _) hq hqidx
  · intro halldir g hg
    have hrootnil : pagePaths.filter (fun p => !hasDirSeg p) = [] := by
      rw [List.filter_eq_nil_iff]
      intro q hq
      simp [halldir q hq]
    have hsnil : sortPages (pagePaths.filter (fun p => !hasDirSeg p)) = [] :=
      hrootiff.mpr hrootnil
    simp only [buildNavigation] at hg
    rw [if_pos hsnil, List.nil_append] at hg
    rcases List.mem_map.mp hg with ⟨entry, hentry, rfl⟩
    obtain ⟨k, b⟩ := entry
    obtain ⟨hbval, -⟩ := hval k b (hperm.mem_iff.mp hentry)
    refine ⟨sortPages b, rfl, ?_⟩
    intro q hq
    have hq' : q ∈ b := (List.perm_insertionSort pageLe b).mem_iff.mp hq
    rw [hbval] at hq'
    have hcond := (List.mem_filter.mp hq').2
    simp only [Bool.and_eq_true, beq_iff_eq] at hcond
    exact hcond.1
  · refine ⟨(List.insertionSort pairLe (bucketsOf pagePaths)).map Prod.fst, ?_, ?_, ?_⟩
    · have hsorted : List.Pairwise pairLe (List.insertionSort pairLe (bucketsOf pagePaths)) :=
        List.sorted_insertionSort pairLe _
      have hnd' : ((List.insertionSort pairLe (bucketsOf pagePaths)).map Prod.fst).Nodup :=
        ((hperm.map Prod.fst).nodup_iff).mpr hnd
      have hnefst : List.Pairwise (fun a b : String × List String => a.1 ≠ b.1)
          (List.insertionSort pairLe (bucketsOf pagePaths)) :=
        List.pairwise_map.mp hnd'
      rw [List.pairwise_map]
      refine (hsorted.and hnefst).imp ?_
      intro a b hab
      have h1 : locLt b.1 a.1 = false := (locCompare_nonpos_iff _ _).mp hab.1
      exact (locLt_false_iff hab.2).mp h1
    · intro d
      exact Iff.trans ((hperm.map Prod.fst).mem_iff) (hkeys d)
    · have hdrop : (buildNavigation pagePaths dirTitleMap).drop
          (if pagePaths.filter (fun p => !hasDirSeg p) = [] then 0 else 1) =
          (List.insertionSort pairLe (bucketsOf pagePaths)).map (mkDirGroup dirTitleMap) := by
        simp only [buildNavigation]
        by_cases hnil : pagePaths.filter (fun p => !hasDirSeg p) = []
        · rw [if_pos hnil, if_pos (hrootiff.mpr hnil)]
          simp
        · rw [if_neg hnil, if_neg (fun h => hnil (hrootiff.mp h))]
          simp
      rw [hdrop]
      apply forall₂_map_map
      intro entry hentry
      obtain ⟨k, b⟩ := entry
      obtain ⟨hbval, -⟩ := hval k b (hperm.mem_iff.mp hentry)
      refine ⟨rfl, rfl, sortPages b, rfl, ?_, ?_⟩
      · exact hbval ▸ List.perm_insertionSort pageLe b
      · rintro ⟨q, hq, hqidx⟩
        exact sorted_indexLike_head (List.sorted_insertionSort pageLe b) hq hqidx

/-- A sample title-override map used to evaluate `buildNavigation_spec`. -/
def navTitlesSample : String → Option String :=
  fun d => if d = "api" then some "API Reference" else none

theorem buildNavigation_spec_witness :
    ∃ g rest,
      buildNavigation ["index", "guides/b", "guides/index", "api/x"] navTitlesSample =
        g :: rest ∧
      g.group = "Getting Started" ∧ g.openapi = none ∧
      ∃ roots : List String, g.pages = roots.map NavItem.page ∧
        roots.Perm
          ((["index", "guides/b", "guides/index", "api/x"] : List String).filter
            (fun p => !hasDirSeg p)) ∧
        ((∃ q ∈ roots, indexLike q = true) →
          ∃ q₀ tl, roots = q₀ :: tl ∧ indexLike q₀ = true) :=
  (buildNavigation_spec ["index", "guides/b", "guides/index", "api/x"] navTitlesSample).1
    ⟨"index", by decide, by decide⟩

/-! ### Configuration resolver (`config.ts`) -/

/-- Embeds `OpenApiConfigEntry` from `types.ts`. -/
structure OpenApiConfigEntry where
  id : String
  source : String
  route : Option String := none
  title : Option String := none
deriving DecidableEq, Repr

/-- Embeds `ApiMode` from `types.ts`. -/
inductive ApiMode where
  | endpointPages
  | singlePage
deriving DecidableEq, Repr

/-- Embeds `isHttpUrl` from `config.ts` (`/^https?:\/\//i`). -/
def isHttpUrl (s : String) : Bool :=
  strStarts ⟨s.data.map Char.toLower⟩ "http://" ||
    strStarts ⟨s.data.map Char.toLower⟩ "https://"

/-- Embeds POSIX `path.isAbsolute`. -/
def isAbsolutePath (s : String) : Bool := strStarts s "/"

/-- Embeds `resolvePath` from `config.ts` (`path.resolve` modelled as plain
join; `.`/`..` normalization does not occur in any property proved here). -/
def resolvePath (cwd v : String) : String :=
  if isAbsolutePath v then v else cwd ++ "/" ++ v

/-- Embeds `ApiConfig` from `types.ts`. -/
structure ApiConfig where
  mode : ApiMode
  generateMissingEndpointPages : Bool
  apiRoot : String
deriving DecidableEq, Repr

/-- Strip a method word from the front of a character list, comparing
case-insensitively (the regex carries the `i` flag); returns the remainder. -/
def stripCI : List Char → List Char → Option (List Char)
  | [], rest => some rest
  | _ :: _, [] => none
  | p :: ps, c :: cs => if Char.toUpper c = p then stripCI ps cs else none

/-- After `\s+`-skipping: the next character must be `/` followed by at
least one character matched by `.` (anything but a line terminator). -/
def opRefSpaces : List Char → Bool
  | [] => false
  | c :: rest =>
    if isJsSpace c then opRefSpaces rest
    else if c = '/' then
      match rest with
      | [] => false
      | d :: _ => d ≠ '\n' ∧ d ≠ '\r'
    else false

/-- The `\s+\/.+` part of the pattern: at least one whitespace character,
then a slash, then at least one `.`-matchable character. -/
def opRefTail : List Char → Bool
  | [] => false
  | c :: rest => isJsSpace c && opRefSpaces rest

/-- The seven method alternatives of the pattern. -/
def methodWords : List String :=
  ["GET", "POST", "PUT", "PATCH", "DELETE", "OPTIONS", "HEAD"]

/-- Embeds `isOperationReference` from `docs-json.ts`: the regex
`^(GET|POST|PUT|PATCH|DELETE|OPTIONS|HEAD)\s+\/.+/i` applied to the trimmed
value (no two method words are prefixes of one another, so alternation is
equivalent to trying each). -/
def isOperationReference (value : String) : Bool :=
  methodWords.any fun w =>
    match stripCI w.data (jsTrim value).data with
    | some rest => opRefTail rest
    | none => false

/-! ### OpenAPI bundles and navigation rewriting (`workspace.ts`) -/

/-- Embeds `OpenApiBundle` from `types.ts`; `outputAbsolutePath` (the
on-disk artifact location) is omitted as a pure filesystem effect. -/
structure OpenApiBundle where
  id : String
  source : String
  route : String
  title : String
  operations : Nat
  operationPages : List OpenApiOperation
  serverUrl : Option String
deriving DecidableEq, Repr

/-- Embeds `toOperationReferenceKey` from `workspace.ts`. -/
def toOperationReferenceKey (method routePath : String) : String :=
  jsTrim (⟨method.data.map Char.toUpper⟩ ++ " " ++ routePath)

/-- `Map.set` semantics: replace the value of an existing key in place,
else append a new entry. -/
def mapSet (m : List (String × String)) (k v : String) : List (String × String) :=
  if m.any (fun kv => kv.1 == k) then
    m.map fun kv => if kv.1 == k then (k, v) else kv
  else m ++ [(k, v)]

/-- `Map.get` semantics. -/
def mapGet (m : List (String × String)) (k : String) : Option String :=
  (m.find? (fun kv => kv.1 == k)).map Prod.snd

/-- Embeds `buildOperationReferenceMap` from `workspace.ts`. -/
def buildOperationReferenceMap (bundles : List OpenApiBundle) : List (String × String) :=
  bundles.foldl
    (fun m bundle =>
      bundle.operationPages.foldl
        (fun m op => mapSet m (toOperationReferenceKey op.method op.path) op.pagePath) m)
    []

mutual
/-- Embeds one `items[index]` step of `rewriteOperationReferencesInItems`:
rewrite a shorthand string to its generated page path, record it as
unresolved when the operation map has no entry, recurse into groups. -/
def rewriteItem (opMap : List (String × String)) : NavItem → NavItem × List String
  | NavItem.page s =>
    if isOperationReference s then
      match mapGet opMap (normalizeWs s) with
      | none => (NavItem.page s, [normalizeWs s])
      | some resolvedPage => (NavItem.page resolvedPage, [])
    else (NavItem.page s, [])
  | NavItem.group n o pages =>
    let inner := rewriteItems opMap pages
    (NavItem.group n o inner.1, inner.2)

/-- Embeds the loop of `rewriteOperationReferencesInItems`. -/
def rewriteItems (opMap : List (String × String)) : List NavItem → List NavItem × List String
  | [] => ([], [])
  | item :: rest =>
    let hd := rewriteItem opMap item
    let tl := rewriteItems opMap rest
    (hd.1 :: tl.1, hd.2 ++ tl.2)
end

/-- Embeds `String.prototype.join(", ")` over the unresolved sample. -/
def joinComma : List String → String
  | [] => ""
  | [s] => s
  | s :: rest => s ++ ", " ++ joinComma rest

/-- Embeds `rewriteOperationReferences` from `workspace.ts`: rewrite every
shorthand reference in every group, then fail with `InvalidDocsJson` when
any reference failed to resolve (quoting punctuation of the original
message is elided). -/
def rewriteOperationReferences (nav : List DocsNavigationGroup)
    (bundles : List OpenApiBundle) :
    Except SparkifyError (List DocsNavigationGroup) :=
  let opMap := buildOperationReferenceMap bundles
  let results := nav.map fun g => (g, rewriteItems opMap g.pages)
  let unresolved := (results.map fun r => r.2.2).flatten
  if unresolved = [] then
    Except.ok (results.map fun r => { r.1 with pages := r.2.1 })
  else
    Except.error
      ⟨"docs navigation references unknown OpenAPI operations: " ++
        joinComma (unresolved.take 5), ExitCode.invalidDocsJson⟩

mutual
/-- The plain-string references of one navigation item, in traversal order
(embeds `collectNavigationRefs` from `workspace.ts`). -/
def collectRefsItem : NavItem → List String
  | NavItem.page s => [s]
  | NavItem.group _ _ pages => collectRefsItems pages

/-- The plain-string references of an item list. -/
def collectRefsItems : List NavItem → List String
  | [] => []
  | item :: rest => collectRefsItem item ++ collectRefsItems rest
end

/-- All plain-string references of a navigation, in order. -/
def collectNavigationRefs (nav : List DocsNavigationGroup) : List String :=
  (nav.map fun g => collectRefsItems g.pages).flatten

/-- The reference loop of `validateNavigationReferences`: the first
shorthand-looking or unknown reference raises `InvalidDocsJson`. -/
def validateRefs (pageSet : List String) : List String → Except SparkifyError Unit
  | [] => Except.ok ()
  | ref :: rest =>
    if isOperationReference ref then
      Except.error
        ⟨"docs navigation reference " ++ ref ++
          " was not resolved to a generated endpoint page.", ExitCode.invalidDocsJson⟩
    else if pageSet.contains ref then validateRefs pageSet rest
    else
      Except.error
        ⟨"docs navigation references " ++ ref ++
          ", but that page does not exist as an .mdx file.", ExitCode.invalidDocsJson⟩

/-- Embeds `validateNavigationReferences` from `workspace.ts`. -/
def validateNavigationReferences (nav : List DocsNavigationGroup)
    (pageSet : List String) : Except SparkifyError Unit :=
  validateRefs pageSet (collectNavigationRefs nav)

/-- Embeds `hasApiReferenceNavigation` from `workspace.ts`: a top-level
group declares an `openapi` source, or some plain-string reference (the
stack traversal visits exactly these) is the api root or sits under it. -/
def hasApiReferenceNavigation (nav : List DocsNavigationGroup)
    (apiRootPath : String) : Bool :=
  nav.any (fun g => g.openapi.isSome) ||
    (collectNavigationRefs nav).any fun item =>
      item == apiRootPath || strStarts item (apiRootPath ++ "/")

/-- Embeds `buildGeneratedApiNavigation` from `workspace.ts`: an intro
group followed by one group per tag (insertion-ordered buckets, sorted by
tag). -/
def buildGeneratedApiNavigation (apiRootPath : String)
    (bundles : List OpenApiBundle) : List DocsNavigationGroup :=
  let introGroup : DocsNavigationGroup :=
    { group := "API Documentation", openapi := none,
      pages := [NavItem.page (apiRootPath ++ "/introduction")] }
  let grouped :=
    bundles.foldl
      (fun m bundle =>
        bundle.operationPages.foldl (fun m op => upsertBucket m op.tag op.pagePath) m)
      []
  introGroup ::
    (List.insertionSort pairLe grouped).map fun e =>
      { group := e.1 ++ " Endpoints", openapi := none, pages := e.2.map NavItem.page }

/-! ### Workspace pages and endpoint-page generation (`workspace.ts`) -/

/-- Embeds `WorkspacePage` from `types.ts`; the filesystem and
presentation fields (`sourceAbsolutePath`, `relativePath`, `title`) are
omitted — no verified property observes them. -/
structure WorkspacePage where
  pagePath : String
  generated : Bool := false
  methodBadge : Option String := none
deriving DecidableEq, Repr

/-- The record produced by `writeGeneratedPage` (the file write itself is
an effect outside the model). -/
def writeGeneratedPage (pagePath : String) (methodBadge : Option String) : WorkspacePage :=
  { pagePath := pagePath, generated := true, methodBadge := methodBadge }

/-- The sort relation of the final `pages.sort` comparator
(`localeCompare` on `pagePath`). -/
def workspacePageLe (a b : WorkspacePage) : Prop :=
  locCompare a.pagePath b.pagePath ≤ 0

instance : DecidableRel workspacePageLe := fun a b =>
  inferInstanceAs (Decidable (locCompare a.pagePath b.pagePath ≤ 0))

instance : IsTrans WorkspacePage workspacePageLe := by
  constructor
  intro a b c h₁ h₂
  unfold workspacePageLe at *
  rw [locCompare_nonpos_iff] at *
  exact locLt_false_trans h₁ h₂

instance : IsTotal WorkspacePage workspacePageLe := by
  constructor
  intro a b
  unfold workspacePageLe
  rw [locCompare_nonpos_iff, locCompare_nonpos_iff]
  by_cases h : locLt b.pagePath a.pagePath = true
  · exact Or.inr (locLt_asymm h)
  · exact Or.inl (by simpa using h)

/-- The per-operation loop of `generateEndpointPages`, threading the page
set: skip paths already present, else record the generated endpoint page. -/
def genOpsPages : List OpenApiOperation → List String → List WorkspacePage × List String
  | [], existing => ([], existing)
  | op :: rest, existing =>
    if existing.contains op.pagePath then genOpsPages rest existing
    else
      let tl := genOpsPages rest (op.pagePath :: existing)
      (writeGeneratedPage op.pagePath (some op.method) :: tl.1, tl.2)

/-- The per-bundle loop of `generateEndpointPages`: one introduction page
per bundle (skipped when its path is taken), then the endpoint pages. -/
def genBundles (apiRootPath : String) :
    List OpenApiBundle → List String → List WorkspacePage × List String
  | [], existing => ([], existing)
  | bundle :: rest, existing =>
    let introPath := apiRootPath ++ "/introduction"
    let withIntro :=
      if existing.contains introPath then (([] : List WorkspacePage), existing)
      else ([writeGeneratedPage introPath none], introPath :: existing)
    let ops := genOpsPages bundle.operationPages withIntro.2
    let tl := genBundles apiRootPath rest ops.2
    (withIntro.1 ++ ops.1 ++ tl.1, tl.2)

/-- Embeds `generateEndpointPages` from `workspace.ts` (pure part): the
generated pages, sorted by page path, plus the extended page set. -/
def generateEndpointPages (apiRootPath : String) (bundles : List OpenApiBundle)
    (existing : List String) : List WorkspacePage × List String :=
  let r := genBundles apiRootPath bundles existing
  (List.insertionSort workspacePageLe r.1, r.2)

/-- Embeds `normalizeRoutePath` from `workspace.ts`. -/
def normalizeRoutePath (route : String) : String :=
  ⟨(((jsTrim route).data.dropWhile (fun c => c = '/')).reverse.dropWhile
      (fun c => c = '/')).reverse⟩

/-- The parts of `PreparedWorkspace` (from `types.ts`) the claims observe. -/
structure PreparedWorkspace where
  navigation : List DocsNavigationGroup
  pages : List WorkspacePage
  openapiBundles : List OpenApiBundle

/-- The final validation-and-return step of `prepareWorkspace`. -/
def finalizeWorkspace (nav : List DocsNavigationGroup) (pages : List WorkspacePage)
    (bundles : List OpenApiBundle) : Except SparkifyError PreparedWorkspace :=
  match validateNavigationReferences nav (pages.map WorkspacePage.pagePath) with
  | Except.error e => Except.error e
  | Except.ok _ =>
    Except.ok
      { navigation := nav
        pages := List.insertionSort workspacePageLe pages
        openapiBundles := bundles }

/-- Embeds the pure page/navigation pipeline of `prepareWorkspace`
(`workspace.ts`, after OpenAPI resolution): the authored page list, loaded
navigation and resolved bundles are parameters (they come from the
filesystem and the resolver); in endpoint-pages mode with bundles, rewrite
shorthand references (hard failure on an unresolved one), synthesize the
home page when enabled and absent, generate introduction and endpoint
pages skipping occupied paths, ensure a home navigation entry, append the
generated API section when nothing references the api root, and finally
validate every remaining reference against the page set. -/
def prepareWorkspacePure (api : ApiConfig) (authoredPages : List WorkspacePage)
    (navigation : List DocsNavigationGroup) (bundles : List OpenApiBundle) :
    Except SparkifyError PreparedWorkspace :=
  let apiRootPath := normalizeRoutePath (strOr api.apiRoot "/api-reference")
  if api.mode = ApiMode.endpointPages ∧ bundles ≠ [] then
    match rewriteOperationReferences navigation bundles with
    | Except.error e => Except.error e
    | Except.ok nav₁ =>
      let existing₀ := authoredPages.map WorkspacePage.pagePath
      let withHome :=
        if api.generateMissingEndpointPages ∧ ¬ existing₀.contains "index" then
          (authoredPages ++ [writeGeneratedPage "index" none], "index" :: existing₀)
        else (authoredPages, existing₀)
      let gen := generateEndpointPages apiRootPath bundles withHome.2
      let pages₂ := if api.generateMissingEndpointPages then withHome.1 ++ gen.1 else withHome.1
      let nav₂ :=
        if ¬ nav₁.any (fun g =>
            g.pages.any fun it =>
              match it with
              | NavItem.page s => s == "index"
              | NavItem.group _ _ _ => false) then
          { group := "Getting Started", openapi := none,
            pages := [NavItem.page "index"] } :: nav₁
        else nav₁
      let nav₃ :=
        if ¬ hasApiReferenceNavigation nav₂ apiRootPath then
          nav₂ ++ buildGeneratedApiNavigation apiRootPath bundles
        else nav₂
      finalizeWorkspace nav₃ pages₂ bundles
  else finalizeWorkspace navigation authoredPages bundles

/-! #### Referential-integrity lemmas for the workspace pipeline -/

theorem strContains_iff (l : List String) (a : String) : l.contains a = true ↔ a ∈ l := by
  simp

theorem validateRefs_ok_iff (pageSet : List String) :
    ∀ refs : List String,
      validateRefs pageSet refs = Except.ok () ↔
        ∀ ref ∈ refs, isOperationReference ref = false ∧ ref ∈ pageSet := by
  intro refs
  induction refs with
  | nil => simp [validateRefs]
  | cons ref rest ih =>
    unfold validateRefs
    by_cases hop : isOperationReference ref = true
    · rw [if_pos hop]
      constructor
      · intro h
        exact absurd h (by simp)
      · intro h
        have := (h ref (List.mem_cons_self ref rest)).1
        rw [hop] at this
        exact absurd this (by simp)
    · rw [if_neg hop]
      by_cases hcon : pageSet.contains ref = true
      · rw [if_pos hcon]
        rw [ih]
        constructor
        · intro h r hr
          rcases List.mem_cons.mp hr with rfl | hr
          · exact ⟨by simpa using hop, (strContains_iff pageSet r).mp hcon⟩
          · exact h r hr
        · intro h r hr
          exact h r (List.mem_cons_of_mem ref hr)
      · rw [if_neg hcon]
        constructor
        · intro h
          exact absurd h (by simp)
        · intro h
          have := (h ref (List.mem_cons_self ref rest)).2
          exact absurd ((strContains_iff pageSet ref).mpr this) hcon

theorem validateRefs_error_code (pageSet : List String) :
    ∀ (refs : List String) (e : SparkifyError),
      validateRefs pageSet refs = Except.error e → e.code = ExitCode.invalidDocsJson := by
  intro refs
  induction refs with
  | nil =>
    intro e h
    exact absurd h (by simp [validateRefs])
  | cons ref rest ih =>
    intro e h
    unfold validateRefs at h
    by_cases hop : isOperationReference ref = true
    · rw [if_pos hop] at h
      have := Except.error.inj h
      rw [← this]
    · rw [if_neg hop] at h
      by_cases hcon : pageSet.contains ref = true
      · rw [if_pos hcon] at h
        exact ih e h
      · rw [if_neg hcon] at h
        have := Except.error.inj h
        rw [← this]

theorem rewriteOperationReferences_error_code (nav : List DocsNavigationGroup)
    (bundles : List OpenApiBundle) (e : SparkifyError)
    (h : rewriteOperationReferences nav bundles = Except.error e) :
    e.code = ExitCode.invalidDocsJson := by
  unfold rewriteOperationReferences at h
  by_cases hu :
      ((nav.map fun g =>
          (g, rewriteItems (buildOperationReferenceMap bundles) g.pages)).map
        fun r => r.2.2).flatten = []
  · simp only [hu, if_pos] at h
    exact absurd h (by simp)
  · simp only [hu, if_neg, reduceIte] at h
    have := Except.error.inj h
    rw [← this]

theorem finalizeWorkspace_ok (nav : List DocsNavigationGroup)
    (pages : List WorkspacePage) (bundles : List OpenApiBundle)
    (w : PreparedWorkspace)
    (h : finalizeWorkspace nav pages bundles = Except.ok w) :
    ∀ ref ∈ collectNavigationRefs w.navigation,
      isOperationReference ref = false ∧ ref ∈ w.pages.map WorkspacePage.pagePath := by
  unfold finalizeWorkspace at h
  cases hv : validateNavigationReferences nav (pages.map WorkspacePage.pagePath) with
  | error e =>
    simp only [hv] at h
    exact absurd h (by simp)
  | ok u =>
    simp only [hv] at h
    have hw : w =
        { navigation := nav,
          pages := List.insertionSort workspacePageLe pages,
          openapiBundles := bundles } := (Except.ok.inj h).symm
    intro ref href
    rw [hw] at href ⊢
    unfold validateNavigationReferences at hv
    cases u
    have hall := (validateRefs_ok_iff (pages.map WorkspacePage.pagePath)
      (collectNavigationRefs nav)).mp hv ref href
    refine ⟨hall.1, ?_⟩
    have hperm : List.Perm
        ((List.insertionSort workspacePageLe pages).map WorkspacePage.pagePath)
        (pages.map WorkspacePage.pagePath) :=
      (List.perm_insertionSort workspacePageLe pages).map WorkspacePage.pagePath
    exact hperm.mem_iff.mpr hall.2

theorem finalizeWorkspace_error_code (nav : List DocsNavigationGroup)
    (pages : List WorkspacePage) (bundles : List OpenApiBundle) (e : SparkifyError)
    (h : finalizeWorkspace nav pages bundles = Except.error e) :
    e.code = ExitCode.invalidDocsJson := by
  unfold finalizeWorkspace at h
  cases hv : validateNavigationReferences nav (pages.map WorkspacePage.pagePath) with
  | error e' =>
    simp only [hv] at h
    have he : e' = e := Except.error.inj h
    unfold validateNavigationReferences at hv
    rw [← he]
    exact validateRefs_error_code (pages.map WorkspacePage.pagePath)
      (collectNavigationRefs nav) e' hv
  | ok u =>
    simp only [hv] at h
    exact absurd h (by simp)

mutual
/-- A shorthand reference of one item that the operation map cannot
resolve is recorded (normalized) in the unresolved list. -/
theorem rewriteItem_unresolved (opMap : List (String × String)) (ref : String)
    (hop : isOperationReference ref = true)
    (hnone : mapGet opMap (normalizeWs ref) = none) :
    ∀ item : NavItem, ref ∈ collectRefsItem item →
      normalizeWs ref ∈ (rewriteItem opMap item).2
  | NavItem.page s => by
    intro hmem
    have hs : ref = s := by simpa [collectRefsItem] using hmem
    subst hs
    unfold rewriteItem
    rw [if_pos hop, hnone]
    exact List.mem_singleton.mpr rfl
  | NavItem.group n o pages => by
    intro hmem
    have hmem : ref ∈ collectRefsItems pages := by
      simpa [collectRefsItem] using hmem
    show normalizeWs ref ∈ (rewriteItems opMap pages).2
    exact rewriteItems_unresolved opMap ref hop hnone pages hmem

/-- List version of `rewriteItem_unresolved`. -/
theorem rewriteItems_unresolved (opMap : List (String × String)) (ref : String)
    (hop : isOperationReference ref = true)
    (hnone : mapGet opMap (normalizeWs ref) = none) :
    ∀ items : List NavItem, ref ∈ collectRefsItems items →
      normalizeWs ref ∈ (rewriteItems opMap items).2
  | [] => by
    intro hmem
    exact absurd (by simpa [collectRefsItems] using hmem) (List.not_mem_nil ref)
  | item :: rest => by
    intro hmem
    have hmem : ref ∈ collectRefsItem item ∨ ref ∈ collectRefsItems rest := by
      simpa [collectRefsItems] using hmem
    show normalizeWs ref ∈
      ((rewriteItem opMap item).1 :: (rewriteItems opMap rest).1,
        (rewriteItem opMap item).2 ++ (rewriteItems opMap rest).2).2
    rcases hmem with hmem | hmem
    · exact List.mem_append_left _ (rewriteItem_unresolved opMap ref hop hnone item hmem)
    · exact List.mem_append_right _
        (rewriteItems_unresolved opMap ref hop hnone rest hmem)
end

theorem rewriteOperationReferences_unresolved (nav : List DocsNavigationGroup)
    (bundles : List OpenApiBundle) (ref : String)
    (hmem : ref ∈ collectNavigationRefs nav)
    (hop : isOperationReference ref = true)
    (hnone : mapGet (buildOperationReferenceMap bundles) (normalizeWs ref) = none) :
    ∃ e, rewriteOperationReferences nav bundles = Except.error e ∧
      e.code = ExitCode.invalidDocsJson := by
  have hflat : normalizeWs ref ∈
      ((nav.map fun g =>
          (g, rewriteItems (buildOperationReferenceMap bundles) g.pages)).map
        fun r => r.2.2).flatten := by
    unfold collectNavigationRefs at hmem
    rw [List.mem_flatten] at hmem ⊢
    obtain ⟨l, hl, hrefl⟩ := hmem
    rw [List.mem_map] at hl
    obtain ⟨g, hg, rfl⟩ := hl
    refine ⟨(rewriteItems (buildOperationReferenceMap bundles) g.pages).2, ?_, ?_⟩
    · rw [List.mem_map]
      exact ⟨(g, rewriteItems (buildOperationReferenceMap bundles) g.pages), by
        rw [List.mem_map]; exact ⟨g, hg, rfl⟩, rfl⟩
    · exact rewriteItems_unresolved (buildOperationReferenceMap bundles) ref hop hnone
        g.pages hrefl
  have hne : ((nav.map fun g =>
      (g, rewriteItems (buildOperationReferenceMap bundles) g.pages)).map
        fun r => r.2.2).flatten ≠ [] :=
    List.ne_nil_of_mem hflat
  refine ⟨⟨"docs navigation references unknown OpenAPI operations: " ++
      joinComma ((((nav.map fun g =>
          (g, rewriteItems (buildOperationReferenceMap bundles) g.pages)).map
        fun r => r.2.2).flatten).take 5), ExitCode.invalidDocsJson⟩, ?_, rfl⟩
  simp only [rewriteOperationReferences]
  rw [if_neg hne]

/-- **C1.** A successful `prepareWorkspace` run has navigation referential
integrity: every plain-string reference of the returned navigation names a
page of the returned page set and no operation shorthand survives; every
failure of the pure pipeline carries the docs-navigation error kind
(`InvalidDocsJson`, the spec taxonomy name being InvalidDocsConfig); and in
endpoint-pages mode with resolved bundles, a shorthand reference the
operation map cannot resolve forces a failure of that kind — never a
silent drop. -/
theorem prepareWorkspace_navigation_integrity (api : ApiConfig)
    (authoredPages : List WorkspacePage) (navigation : List DocsNavigationGroup)
    (bundles : List OpenApiBundle) :
    (∀ w, prepareWorkspacePure api authoredPages navigation bundles = Except.ok w →
      ∀ ref ∈ collectNavigationRefs w.navigation,
        isOperationReference ref = false ∧ ref ∈ w.pages.map WorkspacePage.pagePath) ∧
    (∀ e, prepareWorkspacePure api authoredPages navigation bundles = Except.error e →
      e.code = ExitCode.invalidDocsJson) ∧
    (api.mode = ApiMode.endpointPages → bundles ≠ [] →
      ∀ ref ∈ collectNavigationRefs navigation,
        isOperationReference ref = true →
        mapGet (buildOperationReferenceMap bundles) (normalizeWs ref) = none →
        ∃ e, prepareWorkspacePure api authoredPages navigation bundles =
            Except.error e ∧
          e.code = ExitCode.invalidDocsJson) := by
  refine ⟨?_, ?_, ?_⟩
  · intro w hok
    by_cases hcond : api.mode = ApiMode.endpointPages ∧ bundles ≠ []
    · simp only [prepareWorkspacePure, if_pos hcond] at hok
      cases hrw : rewriteOperationReferences navigation bundles with
      | error e =>
        rw [hrw] at hok
        exact absurd hok (by simp)
      | ok nav₁ =>
        rw [hrw] at hok
        exact finalizeWorkspace_ok _ _ _ w hok
    · simp only [prepareWorkspacePure, if_neg hcond] at hok
      exact finalizeWorkspace_ok _ _ _ w hok
  · intro e herr
    by_cases hcond : api.mode = ApiMode.endpointPages ∧ bundles ≠ []
    · simp only [prepareWorkspacePure, if_pos hcond] at herr
      cases hrw : rewriteOperationReferences navigation bundles with
      | error e' =>
        rw [hrw] at herr
        have := Except.error.inj herr
        rw [← this]
        exact rewriteOperationReferences_error_code navigation bundles e' hrw
      | ok nav₁ =>
        rw [hrw] at herr
        exact finalizeWorkspace_error_code _ _ _ e herr
    · simp only [prepareWorkspacePure, if_neg hcond] at herr
      exact finalizeWorkspace_error_code _ _ _ e herr
  · intro hmode hne ref hmem hop hnone
    obtain ⟨e, hrw, hcode⟩ :=
      rewriteOperationReferences_unresolved navigation bundles ref hmem hop hnone
    refine ⟨e, ?_, hcode⟩
    simp only [prepareWorkspacePure, if_pos (And.intro hmode hne), hrw]

/-! #### Page-generation invariants: the threaded page set records exactly
the generated paths, stays duplicate-free, and generation marks pages. -/

theorem genOpsPages_used : ∀ (ops : List OpenApiOperation) (existing : List String),
    (genOpsPages ops existing).2 =
      ((genOpsPages ops existing).1.map WorkspacePage.pagePath).reverse ++ existing := by
  intro ops
  induction ops with
  | nil => intro existing; simp [genOpsPages]
  | cons op rest ih =>
    intro existing
    unfold genOpsPages
    by_cases h : existing.contains op.pagePath = true
    · rw [if_pos h]
      exact ih existing
    · rw [if_neg h]
      simp only [List.map_cons, List.reverse_cons, writeGeneratedPage]
      rw [ih (op.pagePath :: existing)]
      simp [List.append_assoc]

theorem genOpsPages_nodup : ∀ (ops : List OpenApiOperation) (existing : List String),
    existing.Nodup → (genOpsPages ops existing).2.Nodup := by
  intro ops
  induction ops with
  | nil => intro existing h; simpa [genOpsPages] using h
  | cons op rest ih =>
    intro existing h
    unfold genOpsPages
    by_cases hc : existing.contains op.pagePath = true
    · rw [if_pos hc]
      exact ih existing h
    · rw [if_neg hc]
      refine ih (op.pagePath :: existing) (List.nodup_cons.mpr ⟨?_, h⟩)
      intro hmem
      exact hc ((strContains_iff existing op.pagePath).mpr hmem)

theorem genOpsPages_generated : ∀ (ops : List OpenApiOperation) (existing : List String),
    ∀ p ∈ (genOpsPages ops existing).1, p.generated = true := by
  intro ops
  induction ops with
  | nil => intro existing p hp; simp [genOpsPages] at hp
  | cons op rest ih =>
    intro existing p hp
    unfold genOpsPages at hp
    by_cases hc : existing.contains op.pagePath = true
    · rw [if_pos hc] at hp
      exact ih existing p hp
    · rw [if_neg hc] at hp
      rcases List.mem_cons.mp hp with rfl | hp
      · rfl
      · exact ih (op.pagePath :: existing) p hp

theorem genBundles_used (apiRootPath : String) :
    ∀ (bundles : List OpenApiBundle) (existing : List String),
      (genBundles apiRootPath bundles existing).2 =
        ((genBundles apiRootPath bundles existing).1.map
            WorkspacePage.pagePath).reverse ++ existing := by
  intro bundles
  induction bundles with
  | nil => intro existing; simp [genBundles]
  | cons bundle rest ih =>
    intro existing
    simp only [genBundles]
    by_cases hc : existing.contains (apiRootPath ++ "/introduction") = true
    · rw [if_pos hc]
      simp only [List.nil_append]
      rw [ih, genOpsPages_used]
      simp [List.append_assoc]
    · rw [if_neg hc]
      simp only [List.singleton_append, writeGeneratedPage]
      rw [ih, genOpsPages_used]
      simp [List.append_assoc]

theorem genBundles_nodup (apiRootPath : String) :
    ∀ (bundles : List OpenApiBundle) (existing : List String),
      existing.Nodup → (genBundles apiRootPath bundles existing).2.Nodup := by
  intro bundles
  induction bundles with
  | nil => intro existing h; simpa [genBundles] using h
  | cons bundle rest ih =>
    intro existing h
    simp only [genBundles]
    by_cases hc : existing.contains (apiRootPath ++ "/introduction") = true
    · rw [if_pos hc]
      exact ih _ (genOpsPages_nodup _ _ h)
    · rw [if_neg hc]
      refine ih _ (genOpsPages_nodup _ _ (List.nodup_cons.mpr ⟨?_, h⟩))
      intro hmem
      exact hc ((strContains_iff existing (apiRootPath ++ "/introduction")).mpr hmem)

theorem genBundles_generated (apiRootPath : String) :
    ∀ (bundles : List OpenApiBundle) (existing : List String),
      ∀ p ∈ (genBundles apiRootPath bundles existing).1, p.generated = true := by
  intro bundles
  induction bundles with
  | nil => intro existing p hp; simp [genBundles] at hp
  | cons bundle rest ih =>
    intro existing p hp
    simp only [genBundles] at hp
    by_cases hc : existing.contains (apiRootPath ++ "/introduction") = true
    · rw [if_pos hc] at hp
      simp only [List.nil_append] at hp
      rcases List.mem_append.mp hp with hp | hp
      · exact genOpsPages_generated _ _ p hp
      · exact ih _ p hp
    · rw [if_neg hc] at hp
      simp only [List.singleton_append] at hp
      rcases List.mem_cons.mp hp with rfl | hp
      · rfl
      · rcases List.mem_append.mp hp with hp | hp
        · exact genOpsPages_generated _ _ p hp
        · exact ih _ p hp

/-- Generated endpoint pages extend a duplicate-free base page set without
ever reusing one of its paths, so the combined path list stays
duplicate-free. -/
theorem genPages_combined (apiRootPath : String) (bundles : List OpenApiBundle)
    (base : List WorkspacePage) (baseSet : List String)
    (hperm : List.Perm baseSet (base.map WorkspacePage.pagePath))
    (hnd : baseSet.Nodup) :
    ((base ++ (generateEndpointPages apiRootPath bundles baseSet).1).map
        WorkspacePage.pagePath).Nodup ∧
    ∀ p ∈ (generateEndpointPages apiRootPath bundles baseSet).1,
      p.generated = true ∧ p.pagePath ∉ baseSet := by
  have hused := genBundles_used apiRootPath bundles baseSet
  have hnd₂ := genBundles_nodup apiRootPath bundles baseSet hnd
  rw [hused] at hnd₂
  rw [List.nodup_append] at hnd₂
  obtain ⟨hLnd, hBnd, hdisj⟩ := hnd₂
  have hgenperm : List.Perm (generateEndpointPages apiRootPath bundles baseSet).1
      (genBundles apiRootPath bundles baseSet).1 := by
    unfold generateEndpointPages
    exact List.perm_insertionSort workspacePageLe _
  constructor
  · rw [List.map_append, List.nodup_append]
    refine ⟨hperm.nodup_iff.mp hnd, ?_, ?_⟩
    · exact ((hgenperm.map WorkspacePage.pagePath).nodup_iff.mpr
        (by simpa using hLnd))
    · intro x hx hx₂
      have hxBase : x ∈ baseSet := hperm.mem_iff.mpr hx
      have hxL : x ∈ ((genBundles apiRootPath bundles baseSet).1.map
          WorkspacePage.pagePath).reverse := by
        rw [List.mem_reverse]
        exact (hgenperm.map WorkspacePage.pagePath).mem_iff.mp hx₂
      exact hdisj hxL hxBase
  · intro p hp
    have hpB : p ∈ (genBundles apiRootPath bundles baseSet).1 := hgenperm.mem_iff.mp hp
    refine ⟨genBundles_generated apiRootPath bundles baseSet p hpB, ?_⟩
    intro hmem
    refine hdisj ?_ hmem
    rw [List.mem_reverse]
    exact List.mem_map_of_mem WorkspacePage.pagePath hpB

/-- The pages and bundles a successful `finalizeWorkspace` returns. -/
theorem finalizeWorkspace_ok_shape (nav : List DocsNavigationGroup)
    (pages : List WorkspacePage) (bundles : List OpenApiBundle)
    (w : PreparedWorkspace)
    (h : finalizeWorkspace nav pages bundles = Except.ok w) :
    w.pages = List.insertionSort workspacePageLe pages := by
  unfold finalizeWorkspace at h
  cases hv : validateNavigationReferences nav (pages.map WorkspacePage.pagePath) with
  | error e =>
    simp only [hv] at h
    exact absurd h (by simp)
  | ok u =>
    simp only [hv] at h
    rw [← Except.ok.inj h]

/-- All three C3 conclusions, abstracted over the base page list that
enters generation and its threaded path set. -/
theorem generationStep_pages (apiRootPath : String) (bundles : List OpenApiBundle)
    (authoredPages base : List WorkspacePage) (baseSet : List String)
    (hperm : List.Perm baseSet (base.map WorkspacePage.pagePath))
    (hnd : baseSet.Nodup)
    (hbase : ∀ p ∈ authoredPages, p ∈ base)
    (hsub : ∀ s ∈ authoredPages.map WorkspacePage.pagePath, s ∈ baseSet)
    (hbasegen : ∀ p ∈ base, p.generated = true →
      p.pagePath ∉ authoredPages.map WorkspacePage.pagePath) :
    (((base ++ (generateEndpointPages apiRootPath bundles baseSet).1).map
        WorkspacePage.pagePath).Nodup) ∧
    (∀ p ∈ authoredPages, p ∈ base ++ (generateEndpointPages apiRootPath bundles baseSet).1) ∧
    (∀ p ∈ base ++ (generateEndpointPages apiRootPath bundles baseSet).1,
      p.generated = true → p.pagePath ∉ authoredPages.map WorkspacePage.pagePath) := by
  obtain ⟨h₁, h₂⟩ := genPages_combined apiRootPath bundles base baseSet hperm hnd
  refine ⟨h₁, ?_, ?_⟩
  · intro p hp
    exact List.mem_append_left _ (hbase p hp)
  · intro p hp hgen
    rcases List.mem_append.mp hp with hp | hp
    · exact hbasegen p hp hgen
    · intro hmem
      exact (h₂ p hp).2 (hsub p.pagePath hmem)

/-- **C3.** When the authored page paths are duplicate-free and authored
pages are unmarked, a successful run of the pure `prepareWorkspace`
pipeline returns a page list with pairwise-distinct page paths, every
authored page survives unchanged in the result, and no generated page
(home, introduction or endpoint) occupies an authored page path —
generation skips every occupied path rather than replacing the page. -/
theorem prepareWorkspace_pages_unique (api : ApiConfig)
    (authoredPages : List WorkspacePage) (navigation : List DocsNavigationGroup)
    (bundles : List OpenApiBundle) (w : PreparedWorkspace)
    (hnodup : (authoredPages.map WorkspacePage.pagePath).Nodup)
    (hauth : ∀ p ∈ authoredPages, p.generated = false)
    (hok : prepareWorkspacePure api authoredPages navigation bundles = Except.ok w) :
    (w.pages.map WorkspacePage.pagePath).Nodup ∧
    (∀ p ∈ authoredPages, p ∈ w.pages) ∧
    (∀ p ∈ w.pages, p.generated = true →
      p.pagePath ∉ authoredPages.map WorkspacePage.pagePath) := by
  have transfer : ∀ pages₂ : List WorkspacePage,
      w.pages = List.insertionSort workspacePageLe pages₂ →
      ((pages₂.map WorkspacePage.pagePath).Nodup ∧
        (∀ p ∈ authoredPages, p ∈ pages₂) ∧
        (∀ p ∈ pages₂, p.generated = true →
          p.pagePath ∉ authoredPages.map WorkspacePage.pagePath)) →
      (w.pages.map WorkspacePage.pagePath).Nodup ∧
      (∀ p ∈ authoredPages, p ∈ w.pages) ∧
      (∀ p ∈ w.pages, p.generated = true →
        p.pagePath ∉ authoredPages.map WorkspacePage.pagePath) := by
    intro pages₂ hpages ⟨h₁, h₂, h₃⟩
    have hperm : List.Perm w.pages pages₂ := by
      rw [hpages]
      exact List.perm_insertionSort workspacePageLe pages₂
    refine ⟨?_, ?_, ?_⟩
    · exact ((hperm.map WorkspacePage.pagePath).nodup_iff).mpr h₁
    · intro p hp
      exact hperm.mem_iff.mpr (h₂ p hp)
    · intro p hp
      exact h₃ p (hperm.mem_iff.mp hp)
  by_cases hcond : api.mode = ApiMode.endpointPages ∧ bundles ≠ []
  · simp only [prepareWorkspacePure, if_pos hcond] at hok
    cases hrw : rewriteOperationReferences navigation bundles with
    | error e =>
      simp only [hrw] at hok
      exact absurd hok (by simp)
    | ok nav₁ =>
      simp only [hrw] at hok
      by_cases hwh : api.generateMissingEndpointPages = true ∧
          ¬ ((authoredPages.map WorkspacePage.pagePath).contains "index" = true)
      · rw [if_pos hwh, if_pos hwh.1] at hok
        refine transfer _ (finalizeWorkspace_ok_shape _ _ _ w hok) ?_
        have hidx : "index" ∉ authoredPages.map WorkspacePage.pagePath := fun hmem =>
          hwh.2 ((strContains_iff _ "index").mpr hmem)
        refine generationStep_pages _ bundles authoredPages
          (authoredPages ++ [writeGeneratedPage "index" none])
          ("index" :: authoredPages.map WorkspacePage.pagePath) ?_
          (List.nodup_cons.mpr ⟨hidx, hnodup⟩) ?_ ?_ ?_
        · simp only [List.map_append, writeGeneratedPage, List.map_cons, List.map_nil]
          exact (List.perm_append_singleton _ _).symm
        · intro p hp
          exact List.mem_append_left _ hp
        · intro s hs
          exact List.mem_cons_of_mem _ hs
        · intro p hp hgen
          rcases List.mem_append.mp hp with hp | hp
          · rw [hauth p hp] at hgen
            exact absurd hgen (by simp)
          · have hp : p = writeGeneratedPage "index" none := by simpa using hp
            rw [hp]
            exact hidx
      · rw [if_neg hwh] at hok
        by_cases hg : api.generateMissingEndpointPages = true
        · rw [if_pos hg] at hok
          refine transfer _ (finalizeWorkspace_ok_shape _ _ _ w hok) ?_
          refine generationStep_pages _ bundles authoredPages authoredPages
            (authoredPages.map WorkspacePage.pagePath) (List.Perm.refl _) hnodup
            (fun p hp => hp) (fun s hs => hs) ?_
          intro p hp hgen
          rw [hauth p hp] at hgen
          exact absurd hgen (by simp)
        · rw [if_neg hg] at hok
          refine transfer _ (finalizeWorkspace_ok_shape _ _ _ w hok) ⟨hnodup, ?_, ?_⟩
          · intro p hp
            exact hp
          · intro p hp hgen
            rw [hauth p hp] at hgen
            exact absurd hgen (by simp)
  · simp only [prepareWorkspacePure, if_neg hcond] at hok
    refine transfer _ (finalizeWorkspace_ok_shape _ _ _ w hok) ⟨hnodup, ?_, ?_⟩
    · intro p hp
      exact hp
    · intro p hp hgen
      rw [hauth p hp] at hgen
      exact absurd hgen (by simp)

/-- A one-operation bundle whose navigation references an operation absent
from the schema. -/
def unresolvedNav : List DocsNavigationGroup :=
  [{ group := "API", openapi := none, pages := [NavItem.page "GET /nope"] }]

/-- The bundle list for the integrity witness: one bundle with a single
generated operation page for `GET /pets`. -/
def unresolvedBundles : List OpenApiBundle :=
  [{ id := "pets", source := "openapi.yaml", route := "/api-reference",
     title := "API Reference", operations := 1,
     operationPages :=
       [{ id := "getPets", method := "get", path := "/pets", summary := "",
          description := none, tag := "General",
          pagePath := "api-reference/general/get-pets" }],
     serverUrl := none }]

/-- Navigation for the C3 witness: references the authored introduction
page, whose path generation must then skip. -/
def authoredNav : List DocsNavigationGroup :=
  [{ group := "API", openapi := none,
     pages := [NavItem.page "index", NavItem.page "api-reference/introduction"] }]

/-- One authored page occupying the introduction path the generator would
also produce. -/
def authoredIntroPages : List WorkspacePage :=
  [{ pagePath := "api-reference/introduction" }]

theorem prepareWorkspace_pages_unique_witness :
    ((List.map WorkspacePage.pagePath authoredIntroPages).Nodup ∧
      prepareWorkspacePure
        { mode := ApiMode.endpointPages, apiRoot := "/api-reference",
          generateMissingEndpointPages := true }
        authoredIntroPages authoredNav unresolvedBundles =
        Except.ok
          { navigation :=
              [{ group := "API", openapi := none,
                 pages := [NavItem.page "index",
                   NavItem.page "api-reference/introduction"] }],
            pages :=
              [{ pagePath := "api-reference/general/get-pets", generated := true,
                 methodBadge := some "get" },
               { pagePath := "api-reference/introduction" },
               { pagePath := "index", generated := true }],
            openapiBundles := unresolvedBundles }) ∧
    (∀ p ∈ authoredIntroPages, p ∈
      ([{ pagePath := "api-reference/general/get-pets", generated := true,
          methodBadge := some "get" },
        { pagePath := "api-reference/introduction" },
        { pagePath := "index", generated := true }] : List WorkspacePage)) := by
  refine ⟨⟨by decide, rfl⟩, ?_⟩
  have h := prepareWorkspace_pages_unique
    { mode := ApiMode.endpointPages, apiRoot := "/api-reference",
      generateMissingEndpointPages := true }
    authoredIntroPages authoredNav unresolvedBundles
    { navigation :=
        [{ group := "API", openapi := none,
           pages := [NavItem.page "index",
             NavItem.page "api-reference/introduction"] }],
      pages :=
        [{ pagePath := "api-reference/general/get-pets", generated := true,
           methodBadge := some "get" },
         { pagePath := "api-reference/introduction" },
         { pagePath := "index", generated := true }],
      openapiBundles := unresolvedBundles }
    (by decide) (by decide) rfl
  exact h.2.1

theorem prepareWorkspace_navigation_integrity_witness :
    ∃ e, prepareWorkspacePure
        { mode := ApiMode.endpointPages, apiRoot := "/api-reference",
          generateMissingEndpointPages := true }
        [] unresolvedNav unresolvedBundles = Except.error e ∧
      e.code = ExitCode.invalidDocsJson :=
  (prepareWorkspace_navigation_integrity
      { mode := ApiMode.endpointPages, apiRoot := "/api-reference",
        generateMissingEndpointPages := true }
      [] unresolvedNav unresolvedBundles).2.2 rfl (by decide) "GET /nope"
    (by decide) (by decide) (by decide)

/-! ### OpenAPI source resolution (`openapi.ts`, `resolveOpenApiBundles`) -/

/-- A JS exception in flight: a `SparkifyError` (rethrown verbatim by the
per-entry `catch`) or any other thrown value, carried as its message. -/
inductive ThrownError where
  | native (msg : String)
  | sparkify (e : SparkifyError)

/-- The validated, dereferenced document shape the resolver reads:
`servers[i].url` entries (`none` when not a string) and `paths`. -/
structure OpenApiSchema where
  servers : List (Option String) := []
  paths : OpenApiPaths := []

/-- The external effects of the resolver: the network fetch, the
filesystem read, `JSON.parse`, `YAML.parse` and
`SwaggerParser.validate`, over an abstract parsed-document type `Doc`. -/
structure ResolveOracles (Doc : Type) where
  fetchUrl : String → Option String
  readFile : String → Option String
  jsonParse : String → Except String Doc
  yamlParse : String → Except String Doc
  validate : Doc → Except String OpenApiSchema

/-- Embeds `loadSource` from `openapi.ts`: HTTP fetch for URL sources,
filesystem read otherwise; both failure modes raise `InvalidOpenApi`
(message detail elided). -/
def loadSource {Doc : Type} (oracles : ResolveOracles Doc) (cwd source : String) :
    Except ThrownError String :=
  if isHttpUrl source then
    match oracles.fetchUrl source with
    | some content => Except.ok content
    | none =>
      Except.error
        (ThrownError.sparkify
          ⟨"OpenAPI download failed for " ++ source, ExitCode.invalidOpenApi⟩)
  else
    let absolutePath := if isAbsolutePath source then source else resolvePath cwd source
    match oracles.readFile absolutePath with
    | some content => Except.ok content
    | none =>
      Except.error
        (ThrownError.sparkify
          ⟨"Unable to read OpenAPI source at " ++ absolutePath, ExitCode.invalidOpenApi⟩)

/-- Embeds `parseSource` from `openapi.ts`: JSON-looking content (trimmed
content starting with a brace or bracket) goes to `JSON.parse`, whose
exception propagates natively; anything else goes to `YAML.parse`, whose
failure raises `InvalidOpenApi` naming the source. -/
def parseSource {Doc : Type} (oracles : ResolveOracles Doc) (raw source : String) :
    Except ThrownError Doc :=
  let trimmed := jsTrim raw
  if strStarts trimmed "\x7b" || strStarts trimmed "[" then
    match oracles.jsonParse raw with
    | Except.ok v => Except.ok v
    | Except.error msg => Except.error (ThrownError.native msg)
  else
    match oracles.yamlParse raw with
    | Except.ok v => Except.ok v
    | Except.error msg =>
      Except.error
        (ThrownError.sparkify
          ⟨"OpenAPI source " ++ source ++ " is neither valid JSON nor YAML: " ++ msg,
            ExitCode.invalidOpenApi⟩)

/-- Embeds `normalizeServerUrl` from `openapi.ts`. -/
def normalizeServerUrl (schema : OpenApiSchema) (configured : Option String) :
    OpenApiSchema × Option String :=
  match configured with
  | some u => ({ schema with servers := [some u] }, some u)
  | none =>
    match schema.servers.head? with
    | some (some u) => (schema, some u)
    | _ => (schema, none)

/-- Embeds `dedupeEntries` from `openapi.ts`: keep the first entry per
`` `${id}::${source}` `` signature. -/
def dedupeGo : List OpenApiConfigEntry → List String → List OpenApiConfigEntry
  | [], _ => []
  | e :: rest, seen =>
    if seen.contains (e.id ++ "::" ++ e.source) then dedupeGo rest seen
    else e :: dedupeGo rest ((e.id ++ "::" ++ e.source) :: seen)

/-- Embeds `dedupeEntries` from `openapi.ts`. -/
def dedupeEntries (entries : List OpenApiConfigEntry) : List OpenApiConfigEntry :=
  dedupeGo entries []

mutual
/-- Embeds `collectOpenApiRefs` from `docs-json.ts` for one item: a truthy
`openapi` field of a nested group, then its children. -/
def collectOpenApiRefsItem : NavItem → List String
  | NavItem.page _ => []
  | NavItem.group _ o pages =>
    (match o with
      | some s => if s = "" then [] else [s]
      | none => []) ++ collectOpenApiRefsItems pages

/-- Embeds the loop of `collectOpenApiRefs`. -/
def collectOpenApiRefsItems : List NavItem → List String
  | [] => []
  | i :: rest => collectOpenApiRefsItem i ++ collectOpenApiRefsItems rest
end

/-- First-occurrence deduplication (JS `Set` insertion order). -/
def dedupFirstGo : List String → List String → List String
  | [], _ => []
  | s :: rest, seen =>
    if seen.contains s then dedupFirstGo rest seen
    else s :: dedupFirstGo rest (s :: seen)

/-- Embeds `collectNavigationOpenApiSources` from `docs-json.ts`. -/
def collectNavigationOpenApiSources (docsJson : DocsJson) : List String :=
  dedupFirstGo
    ((docsJson.navigation.map fun g =>
      (match g.openapi with
        | some s => if s = "" then [] else [s]
        | none => []) ++ collectOpenApiRefsItems g.pages).flatten)
    []

/-- Embeds POSIX `path.basename`: trailing separators are ignored
(`basename "a/b/" = "b"`), an all-separator path yields `"/"`, and the
empty path yields `""`. -/
def pathBasename (s : String) : String :=
  let trimmed := s.data.reverse.dropWhile (fun c => c = '/')
  if trimmed = [] then (if s.data = [] then "" else "/")
  else ⟨(trimmed.takeWhile (fun c => c ≠ '/')).reverse⟩

/-- Embeds `.replace(/\.(json|yaml|yml)$/i, "")`. -/
def stripOpenApiExt (s : String) : String :=
  let low : String := ⟨s.data.map Char.toLower⟩
  if strEnds low ".json" then ⟨s.data.take (s.data.length - 5)⟩
  else if strEnds low ".yaml" then ⟨s.data.take (s.data.length - 5)⟩
  else if strEnds low ".yml" then ⟨s.data.take (s.data.length - 4)⟩
  else s

/-- Embeds `deriveNavigationEntries` from `openapi.ts`. -/
def deriveNavigationEntries (docsJson : DocsJson) (defaultRoute : String) :
    List OpenApiConfigEntry :=
  (collectNavigationOpenApiSources docsJson).map fun source =>
    { id := strOr (slugify (stripOpenApiExt (pathBasename source))) "api"
      source := source
      route := some defaultRoute
      title := some "API Reference" }

/-- The combined, deduplicated source list of `resolveOpenApiBundles`. -/
def combinedEntries (docsJson : DocsJson) (entries : List OpenApiConfigEntry)
    (defaultRoute : String) : List OpenApiConfigEntry :=
  dedupeEntries (entries ++ deriveNavigationEntries docsJson defaultRoute)

/-- The body of the per-entry `try` block of `resolveOpenApiBundles`:
load, parse, validate, normalize the server URL, synthesize operation
pages (endpoint-pages mode only) and assemble the bundle. -/
def resolveEntrySteps {Doc : Type} (oracles : ResolveOracles Doc) (docsDir : String)
    (configuredServerUrl : Option String) (apiMode : ApiMode) (apiRoot : String)
    (defaultRoute : String) (entry : OpenApiConfigEntry) :
    Except ThrownError OpenApiBundle :=
  match loadSource oracles docsDir entry.source with
  | Except.error e => Except.error e
  | Except.ok raw =>
    match parseSource oracles raw entry.source with
    | Except.error e => Except.error e
    | Except.ok parsed =>
      match oracles.validate parsed with
      | Except.error msg => Except.error (ThrownError.native msg)
      | Except.ok validated =>
        let r := normalizeServerUrl validated configuredServerUrl
        Except.ok
          { id := entry.id
            source := entry.source
            route := entry.route.getD defaultRoute
            title := entry.title.getD "API Reference"
            operations := countOperations r.1.paths
            operationPages :=
              if apiMode = ApiMode.endpointPages then buildOperationPages r.1.paths apiRoot
              else []
            serverUrl := r.2 }

/-- The per-entry `try`/`catch` of `resolveOpenApiBundles`: a
`SparkifyError` is rethrown, anything else is wrapped as an
`InvalidOpenApi` validation failure naming the source. -/
def resolveEntry {Doc : Type} (oracles : ResolveOracles Doc) (docsDir : String)
    (configuredServerUrl : Option String) (apiMode : ApiMode) (apiRoot : String)
    (defaultRoute : String) (entry : OpenApiConfigEntry) :
    Except SparkifyError OpenApiBundle :=
  match resolveEntrySteps oracles docsDir configuredServerUrl apiMode apiRoot
      defaultRoute entry with
  | Except.ok b => Except.ok b
  | Except.error (ThrownError.sparkify e) => Except.error e
  | Except.error (ThrownError.native msg) =>
    Except.error
      ⟨"OpenAPI validation failed for " ++ entry.source ++ ": " ++ msg,
        ExitCode.invalidOpenApi⟩

/-- The entry loop of `resolveOpenApiBundles`. -/
def resolveAll {Doc : Type} (oracles : ResolveOracles Doc) (docsDir : String)
    (configuredServerUrl : Option String) (apiMode : ApiMode) (apiRoot : String)
    (defaultRoute : String) :
    List OpenApiConfigEntry → Except SparkifyError (List OpenApiBundle)
  | [] => Except.ok []
  | entry :: rest =>
    match resolveEntry oracles docsDir configuredServerUrl apiMode apiRoot
        defaultRoute entry with
    | Except.error e => Except.error e
    | Except.ok b =>
      match resolveAll oracles docsDir configuredServerUrl apiMode apiRoot
          defaultRoute rest with
      | Except.error e => Except.error e
      | Except.ok bs => Except.ok (b :: bs)

/-- Embeds `resolveOpenApiBundles` from `openapi.ts` over effect oracles
(the bundle-file write is an effect outside the model). -/
def resolveOpenApiBundles {Doc : Type} (oracles : ResolveOracles Doc)
    (docsJson : DocsJson) (docsDir : String) (entries : List OpenApiConfigEntry)
    (configuredServerUrl : Option String) (apiMode : ApiMode) (apiRoot : String) :
    Except SparkifyError (List OpenApiBundle) :=
  let defaultRoute := if apiMode = ApiMode.singlePage then "/api" else apiRoot
  resolveAll oracles docsDir configuredServerUrl apiMode apiRoot defaultRoute
    (combinedEntries docsJson entries defaultRoute)

/-! #### Error-kind lemmas for the resolver -/

theorem loadSource_sparkify_code {Doc : Type} (oracles : ResolveOracles Doc)
    (cwd source : String) (e : SparkifyError)
    (h : loadSource oracles cwd source = Except.error (ThrownError.sparkify e)) :
    e.code = ExitCode.invalidOpenApi := by
  unfold loadSource at h
  by_cases hurl : isHttpUrl source = true
  · rw [if_pos hurl] at h
    cases hfetch : oracles.fetchUrl source with
    | some content => rw [hfetch] at h; exact absurd h (by simp)
    | none =>
      rw [hfetch] at h
      have := Except.error.inj h
      have := ThrownError.sparkify.inj this
      rw [← this]
  · rw [if_neg hurl] at h
    cases hread : oracles.readFile
        (if isAbsolutePath source then source else resolvePath cwd source) with
    | some content =>
      simp only [hread] at h
      exact absurd h (by simp)
    | none =>
      simp only [hread] at h
      have := Except.error.inj h
      have := ThrownError.sparkify.inj this
      rw [← this]

theorem parseSource_sparkify_code {Doc : Type} (oracles : ResolveOracles Doc)
    (raw source : String) (e : SparkifyError)
    (h : parseSource oracles raw source = Except.error (ThrownError.sparkify e)) :
    e.code = ExitCode.invalidOpenApi := by
  unfold parseSource at h
  by_cases hsniff : (strStarts (jsTrim raw) "\x7b" || strStarts (jsTrim raw) "[") = true
  · rw [if_pos hsniff] at h
    cases hj : oracles.jsonParse raw with
    | ok v => rw [hj] at h; exact absurd h (by simp)
    | error msg =>
      rw [hj] at h
      have := Except.error.inj h
      exact absurd this (by simp)
  · rw [if_neg hsniff] at h
    cases hy : oracles.yamlParse raw with
    | ok v => rw [hy] at h; exact absurd h (by simp)
    | error msg =>
      rw [hy] at h
      have := Except.error.inj h
      have := ThrownError.sparkify.inj this
      rw [← this]

theorem resolveEntrySteps_sparkify_code {Doc : Type} (oracles : ResolveOracles Doc)
    (docsDir : String) (configuredServerUrl : Option String) (apiMode : ApiMode)
    (apiRoot defaultRoute : String) (entry : OpenApiConfigEntry) (e : SparkifyError)
    (h : resolveEntrySteps oracles docsDir configuredServerUrl apiMode apiRoot
        defaultRoute entry = Except.error (ThrownError.sparkify e)) :
    e.code = ExitCode.invalidOpenApi := by
  unfold resolveEntrySteps at h
  cases hload : loadSource oracles docsDir entry.source with
  | error te =>
    simp only [hload] at h
    have := Except.error.inj h
    exact loadSource_sparkify_code oracles docsDir entry.source e (by rw [hload, this])
  | ok raw =>
    simp only [hload] at h
    cases hparse : parseSource oracles raw entry.source with
    | error te =>
      simp only [hparse] at h
      have := Except.error.inj h
      exact parseSource_sparkify_code oracles raw entry.source e (by rw [hparse, this])
    | ok parsed =>
      simp only [hparse] at h
      cases hval : oracles.validate parsed with
      | error msg =>
        simp only [hval] at h
        have := Except.error.inj h
        exact absurd this (by simp)
      | ok validated =>
        simp only [hval] at h
        exact absurd h (by simp)

theorem resolveEntry_error_code {Doc : Type} (oracles : ResolveOracles Doc)
    (docsDir : String) (configuredServerUrl : Option String) (apiMode : ApiMode)
    (apiRoot defaultRoute : String) (entry : OpenApiConfigEntry) (e : SparkifyError)
    (h : resolveEntry oracles docsDir configuredServerUrl apiMode apiRoot
        defaultRoute entry = Except.error e) :
    e.code = ExitCode.invalidOpenApi := by
  unfold resolveEntry at h
  cases hsteps : resolveEntrySteps oracles docsDir configuredServerUrl apiMode apiRoot
      defaultRoute entry with
  | ok b => rw [hsteps] at h; exact absurd h (by simp)
  | error te =>
    rw [hsteps] at h
    cases te with
    | sparkify e' =>
      have he : e' = e := Except.error.inj h
      exact resolveEntrySteps_sparkify_code oracles docsDir configuredServerUrl apiMode
        apiRoot defaultRoute entry e (by rw [hsteps, he])
    | native msg =>
      have := Except.error.inj h
      rw [← this]

theorem resolveAll_error_code {Doc : Type} (oracles : ResolveOracles Doc)
    (docsDir : String) (configuredServerUrl : Option String) (apiMode : ApiMode)
    (apiRoot defaultRoute : String) :
    ∀ (l : List OpenApiConfigEntry) (e : SparkifyError),
      resolveAll oracles docsDir configuredServerUrl apiMode apiRoot defaultRoute l =
        Except.error e →
      e.code = ExitCode.invalidOpenApi := by
  intro l
  induction l with
  | nil =>
    intro e h
    exact absurd h (by simp [resolveAll])
  | cons entry rest ih =>
    intro e h
    unfold resolveAll at h
    cases he : resolveEntry oracles docsDir configuredServerUrl apiMode apiRoot
        defaultRoute entry with
    | error e' =>
      rw [he] at h
      have := Except.error.inj h
      rw [← this]
      exact resolveEntry_error_code oracles docsDir configuredServerUrl apiMode apiRoot
        defaultRoute entry e' he
    | ok b =>
      rw [he] at h
      cases hrest : resolveAll oracles docsDir configuredServerUrl apiMode apiRoot
          defaultRoute rest with
      | error e' =>
        rw [hrest] at h
        have := Except.error.inj h
        rw [← this]
        exact ih e' hrest
      | ok bs =>
        rw [hrest] at h
        exact absurd h (by simp)

theorem resolveAll_fails {Doc : Type} (oracles : ResolveOracles Doc)
    (docsDir : String) (configuredServerUrl : Option String) (apiMode : ApiMode)
    (apiRoot defaultRoute : String) {entry : OpenApiConfigEntry}
    (hfail : ∃ e₀, resolveEntry oracles docsDir configuredServerUrl apiMode apiRoot
        defaultRoute entry = Except.error e₀) :
    ∀ (l : List OpenApiConfigEntry), entry ∈ l →
      ∃ e, resolveAll oracles docsDir configuredServerUrl apiMode apiRoot defaultRoute l =
        Except.error e := by
  intro l
  induction l with
  | nil =>
    intro h
    exact absurd h (List.not_mem_nil entry)
  | cons hd rest ih =>
    intro hmem
    unfold resolveAll
    cases he : resolveEntry oracles docsDir configuredServerUrl apiMode apiRoot
        defaultRoute hd with
    | error e' => exact ⟨e', rfl⟩
    | ok b =>
      rcases List.mem_cons.mp hmem with rfl | htail
      · obtain ⟨e₀, he₀⟩ := hfail
        rw [he] at he₀
        exact absurd he₀ (by simp)
      · obtain ⟨e, hrest⟩ := ih htail
        rw [hrest]
        exact ⟨e, rfl⟩

/-- **C7.** Content that parses as neither JSON nor YAML makes resolution
fail — never silently succeed — with the `InvalidOpenApi` exit code (this
holds for the whole `resolveOpenApiBundles` run containing the source),
and the per-source error carries `InvalidOpenApi` and a message naming the
source. -/
theorem resolveOpenApi_parse_failure {Doc : Type} (oracles : ResolveOracles Doc)
    (docsJson : DocsJson) (docsDir : String) (entries : List OpenApiConfigEntry)
    (configuredServerUrl : Option String) (apiMode : ApiMode) (apiRoot : String)
    (entry : OpenApiConfigEntry) (raw jmsg ymsg : String)
    (hmem : entry ∈ combinedEntries docsJson entries
      (if apiMode = ApiMode.singlePage then "/api" else apiRoot))
    (hload : loadSource oracles docsDir entry.source = Except.ok raw)
    (hjson : oracles.jsonParse raw = Except.error jmsg)
    (hyaml : oracles.yamlParse raw = Except.error ymsg) :
    (∃ e, resolveOpenApiBundles oracles docsJson docsDir entries configuredServerUrl
        apiMode apiRoot = Except.error e ∧ e.code = ExitCode.invalidOpenApi) ∧
    (∃ e, resolveEntry oracles docsDir configuredServerUrl apiMode apiRoot
        (if apiMode = ApiMode.singlePage then "/api" else apiRoot) entry =
          Except.error e ∧
      e.code = ExitCode.invalidOpenApi ∧
      ∃ pre post, e.message = pre ++ entry.source ++ post) := by
  have hparse : ∃ te, parseSource oracles raw entry.source = Except.error te ∧
      (te = ThrownError.native jmsg ∨
        te = ThrownError.sparkify
          ⟨"OpenAPI source " ++ entry.source ++ " is neither valid JSON nor YAML: " ++ ymsg,
            ExitCode.invalidOpenApi⟩) := by
    unfold parseSource
    by_cases hsniff : (strStarts (jsTrim raw) "\x7b" || strStarts (jsTrim raw) "[") = true
    · rw [if_pos hsniff, hjson]
      exact ⟨ThrownError.native jmsg, rfl, Or.inl rfl⟩
    · rw [if_neg hsniff, hyaml]
      exact ⟨_, rfl, Or.inr rfl⟩
  obtain ⟨te, hpe, hte⟩ := hparse
  have hsteps : resolveEntrySteps oracles docsDir configuredServerUrl apiMode apiRoot
      (if apiMode = ApiMode.singlePage then "/api" else apiRoot) entry =
      Except.error te := by
    unfold resolveEntrySteps
    simp only [hload, hpe]
  have hentry : ∃ e, resolveEntry oracles docsDir configuredServerUrl apiMode apiRoot
      (if apiMode = ApiMode.singlePage then "/api" else apiRoot) entry =
        Except.error e ∧
      e.code = ExitCode.invalidOpenApi ∧
      ∃ pre post, e.message = pre ++ entry.source ++ post := by
    unfold resolveEntry
    rw [hsteps]
    rcases hte with rfl | rfl
    · refine ⟨_, rfl, rfl, "OpenAPI validation failed for ", ": " ++ jmsg, ?_⟩
      show "OpenAPI validation failed for " ++ entry.source ++ ": " ++ jmsg =
        "OpenAPI validation failed for " ++ entry.source ++ (": " ++ jmsg)
      rw [String.append_assoc]
    · refine ⟨_, rfl, rfl, "OpenAPI source ",
        " is neither valid JSON nor YAML: " ++ ymsg, ?_⟩
      show "OpenAPI source " ++ entry.source ++ " is neither valid JSON nor YAML: " ++ ymsg =
        "OpenAPI source " ++ entry.source ++ (" is neither valid JSON nor YAML: " ++ ymsg)
      rw [String.append_assoc]
  refine ⟨?_, hentry⟩
  obtain ⟨e₀, he₀, -⟩ := hentry
  obtain ⟨e, hall⟩ := resolveAll_fails oracles docsDir configuredServerUrl apiMode apiRoot
    (if apiMode = ApiMode.singlePage then "/api" else apiRoot) ⟨e₀, he₀⟩
    (combinedEntries docsJson entries
      (if apiMode = ApiMode.singlePage then "/api" else apiRoot)) hmem
  refine ⟨e, ?_, ?_⟩
  · unfold resolveOpenApiBundles
    exact hall
  · exact resolveAll_error_code oracles docsDir configuredServerUrl apiMode apiRoot
      (if apiMode = ApiMode.singlePage then "/api" else apiRoot) _ e hall

/-- Concrete oracles under which every raw content parses as neither JSON
nor YAML while the file itself is readable. -/
def parseFailOracles : ResolveOracles Unit where
  fetchUrl := fun _ => none
  readFile := fun _ => some "plainly not structured"
  jsonParse := fun _ => Except.error "unexpected token"
  yamlParse := fun _ => Except.error "bad indentation"
  validate := fun _ => Except.error "unreachable"

/-- A configured OpenAPI entry pointing at the unparsable file. -/
def parseFailEntry : OpenApiConfigEntry := { id := "pets", source := "openapi.yaml" }

theorem resolveOpenApi_parse_failure_witness :
    ∃ e, resolveOpenApiBundles parseFailOracles {} "/docs" [parseFailEntry] none
        ApiMode.endpointPages "api-reference" = Except.error e ∧
      e.code = ExitCode.invalidOpenApi :=
  (resolveOpenApi_parse_failure parseFailOracles {} "/docs" [parseFailEntry] none
      ApiMode.endpointPages "api-reference" parseFailEntry "plainly not structured"
      "unexpected token" "bad indentation" (by decide) rfl rfl rfl).1

end Sparkify
